import Mathlib

/-!
# send-text: a shallow embedding of `client/send-text.cc`

The program parses its options, validates the resulting geometry, opens the
display socket, assembles the text from the positional arguments, measures
it with a dry-run `DrawText`, and then either scrolls it (one frame per
horizontal offset) or shows it once.

Conventions of the embedding.

* C `int` variables are `Int`.  The three arithmetic expressions of `main`
  (`total_len + width`, `width - s`, `(height - font.height()) / 2 +
  font.baseline()`) are taken without wrap-around: signed overflow is
  undefined in C, so the model speaks about runs in which they stay in range.
* C strings are `List Char` (no embedded NUL).
* Everything `main` does to the outside world is recorded, in order, in a
  trace of `Event`s.  The logical time of an event is its index in the trace.
* What `main` cannot decide by itself is read from an `Env`: the font
  library, the socket library, the value `DrawText` returns, the value of the
  `volatile` flag `interrupt_received` at every logical time, and the status
  the transport reports for a `Send` at every logical time.
* The `do ... while` loop of `main` need not terminate, so it takes a fuel
  argument counting the sweeps it may still start; the inner `for` loop is
  given as many iterations as its bound allows.
-/

namespace SendText

/-- An RGB colour, the `Color` of the display library. -/
structure Color where
  r : Nat
  g : Nat
  b : Nat
deriving DecidableEq, Repr

/-- The observable state of an `ft::Font` object: what `height()` and
`baseline()` return, and an identifier standing for its glyph table. -/
structure Font where
  height : Int
  baseline : Int
  glyphs : Nat
deriving DecidableEq, Repr

/-- One command-line option as `getopt` hands it to the `switch` of `main`,
together with what the libc call of its `case` makes of `optarg`. -/
inductive Opt where
  /-- The option `-g`: the values `sscanf(optarg, "%dx%d%d%d%d", ...)` converts, in order. -/
  | g (conv : List Int)
  /-- The option `-h` with its host name. -/
  | h (host : List Char)
  /-- The option `-f` with the font path. -/
  | f (path : List Char)
  /-- The option `-o`. -/
  | o
  /-- The option `-l`: the value of `atoi(optarg)`. -/
  | l (n : Int)
  /-- The option `-s`: the value of `atoi(optarg)`. -/
  | s (n : Int)
  /-- The option `-c`: the values `sscanf(optarg, "%02x%02x%02x", ...)` converts. -/
  | c (conv : List Nat)
  /-- The option `-b`: the values `sscanf(optarg, "%02x%02x%02x", ...)` converts. -/
  | b (conv : List Nat)
  /-- Anything else: `getopt` returned a character without a `case`. -/
  | other
deriving DecidableEq, Repr

/-- The messages `main` and `usage` write to standard error. -/
inductive Msg where
  | invalidSizeSpec
  | couldntLoadFont
  | fgParseError
  | bgParseError
  | usageText
  | needFont
  | unusualSize
  | cannotConnect
  | emptyText
  | interrupted
deriving DecidableEq, Repr

/-- The externally visible steps of `main`, in the order they happen. -/
inductive Event where
  /-- A line written with `fprintf(stderr, ...)`. -/
  | stderr (m : Msg)
  /-- The call `OpenFlaschenTaschenSocket(host)` and the descriptor it returned. -/
  | openSocket (host : Option (List Char)) (fd : Int)
  /-- The construction `UDPFlaschenTaschen display(fd, width, height)`. -/
  | newDisplay (fd width height : Int)
  /-- The call `display.SetOffset(off_x, off_y, off_z)`. -/
  | setOffset (x y z : Int)
  /-- A call `DrawText(&display, font, x, y, fg, bg, text)`; `bg = none` is the `NULL` of the dry run. -/
  | drawText (x y : Int) (fg : Color) (bg : Option Color) (text : List Char)
  /-- The call `signal(signo, InterruptHandler)`. -/
  | signal (signo : Nat)
  /-- The call `display.Fill(c)`. -/
  | fill (c : Color)
  /-- A call `display.Send()`; `ok` is the status the transport reports, which `main` never looks at. -/
  | send (ok : Bool)
  /-- The call `usleep(us)`. -/
  | usleep (us : Nat)
  /-- The call `display.Clear()`. -/
  | clear
  /-- One evaluation of `interrupt_received` and the value read. -/
  | readInterrupt (v : Bool)
  /-- The call `close(fd)`. -/
  | close (fd : Int)
deriving DecidableEq, Repr

/-- The world outside `main`. -/
structure Env where
  /-- The default-constructed `ft::Font font`. -/
  newFont : Font
  /-- The method `font.LoadFont(path)`: its result and the font afterwards. -/
  loadFont : Font → List Char → Bool × Font
  /-- The function `OpenFlaschenTaschenSocket(host)`. -/
  openSocket : Option (List Char) → Int
  /-- The value `DrawText(&display, font, x, y, fg, bg, text)` returns. -/
  drawText : Font → Int → Int → Color → Option Color → List Char → Int
  /-- The value of `interrupt_received` at logical time `t`. -/
  interrupt_received : Nat → Bool
  /-- Whether the transport reports success for a `Send` issued at logical time `t`. -/
  sendOk : Nat → Bool

/-- The local variables of `main` that the option loop assigns, with the
trace written so far. -/
structure Vars where
  width : Int
  height : Int
  off_x : Int
  off_y : Int
  off_z : Int
  scroll_delay_ms : Int
  run_forever : Bool
  host : Option (List Char)
  fg : Color
  bg : Color
  font : Font
  trace : List Event

/-- How a run of `main` ends: the value returned and the trace. -/
structure Outcome where
  exit : Int
  trace : List Event
deriving DecidableEq, Repr

/-- The initialisers of lines 51-64. -/
def initVars (env : Env) : Vars :=
  { width := 45, height := -1, off_x := 0, off_y := 0, off_z := 1,
    scroll_delay_ms := 50, run_forever := true, host := none,
    fg := ⟨0xff, 0xff, 0xff⟩, bg := ⟨0, 0, 0⟩, font := env.newFont, trace := [] }

/-- The function `usage`: print the help text and return 1. -/
def usage (tr : List Event) : Outcome :=
  ⟨1, tr ++ [Event.stderr Msg.usageText]⟩

/-- The assignments `sscanf(optarg, "%dx%d%d%d%d", &width, &height, &off_x,
&off_y, &off_z)` performs: the converted values go, in order, to the first
variables; the others keep their value. -/
def sscanfGeometry (v : Vars) : List Int → Vars
  | [] => v
  | [w] => { v with width := w }
  | [w, h] => { v with width := w, height := h }
  | [w, h, x] => { v with width := w, height := h, off_x := x }
  | [w, h, x, y] => { v with width := w, height := h, off_x := x, off_y := y }
  | w :: h :: x :: y :: z :: _ =>
    { v with width := w, height := h, off_x := x, off_y := y, off_z := z }

/-- The colour three converted bytes give (assignment to `uint8_t` fields). -/
def colorOf : List Nat → Option Color
  | [r, g, b] => some ⟨r % 256, g % 256, b % 256⟩
  | _ => none

/-- The body of the `switch (opt)` of lines 67-113 for one option: the
variables afterwards, or the outcome of an early `return`. -/
def optStep (env : Env) (v : Vars) : Opt → Except Outcome Vars
  | Opt.g conv =>
    if conv.length < 2 then
      Except.error (usage (v.trace ++ [Event.stderr Msg.invalidSizeSpec]))
    else Except.ok (sscanfGeometry v conv)
  | Opt.h host => Except.ok { v with host := some host }
  | Opt.f path =>
    let res := env.loadFont v.font path
    if res.1 then Except.ok { v with font := res.2 }
    else Except.ok { v with font := res.2,
                            trace := v.trace ++ [Event.stderr Msg.couldntLoadFont] }
  | Opt.o => Except.ok { v with run_forever := false }
  | Opt.l n => Except.ok { v with off_z := n }
  | Opt.s n =>
    if n > 0 ∧ n < 10 then Except.ok { v with scroll_delay_ms := 10 }
    else Except.ok { v with scroll_delay_ms := n }
  | Opt.c conv =>
    match colorOf conv with
    | some col => Except.ok { v with fg := col }
    | none => Except.error (usage (v.trace ++ [Event.stderr Msg.fgParseError]))
  | Opt.b conv =>
    match colorOf conv with
    | some col => Except.ok { v with bg := col }
    | none => Except.error (usage (v.trace ++ [Event.stderr Msg.bgParseError]))
  | Opt.other => Except.error (usage v.trace)

/-- The loop `while ((opt = getopt(...)) != -1)` of lines 66-114 over the
options in the order `getopt` returns them. -/
def getoptLoop (env : Env) (v : Vars) : List Opt → Except Outcome Vars
  | [] => Except.ok v
  | opt :: rest =>
    match optStep env v opt with
    | Except.error out => Except.error out
    | Except.ok v1 => getoptLoop env v1 rest

/-- The function `isspace` of the C locale. -/
def isspace (ch : Char) : Bool :=
  ch.toNat = 32 || (9 ≤ ch.toNat && ch.toNat ≤ 13)

/-- Lines 140-143: every positional argument is appended, each followed by
one space. -/
def assemble : List (List Char) → List Char
  | [] => []
  | arg :: rest => arg ++ [' '] ++ assemble rest

/-- Lines 144-150: skip the leading white space of the assembled string. -/
def eatLeadingSpaces (str : List Char) : List Char :=
  str.dropWhile isspace

/-- What the render loop reads: the variables as they stand on line 165. -/
structure Plan where
  width : Int
  height : Int
  off_z : Int
  scroll_delay_ms : Int
  run_forever : Bool
  fg : Color
  bg : Color
  font : Font
  fd : Int
  text : List Char
  y_pos : Int
  total_len : Int

/-- The argument of `usleep`: `scroll_delay_ms * 1000` as a `useconds_t`. -/
def usleepArg (ms : Int) : Nat :=
  ((ms * 1000) % 4294967296).toNat

/-- The `for` loop of lines 168-172, started at `s`, with `n` iterations
allowed.  The condition `s < total_len + width && !interrupt_received` only
reads the flag when its first half holds. -/
def forLoop (env : Env) (p : Plan) : Nat → Int → List Event → Option (List Event)
  | 0, s, tr =>
    if s < p.total_len + p.width then
      let v := env.interrupt_received tr.length
      if v then some (tr ++ [Event.readInterrupt v]) else none
    else some tr
  | n + 1, s, tr =>
    if s < p.total_len + p.width then
      let v := env.interrupt_received tr.length
      let tr1 := tr ++ [Event.readInterrupt v]
      if v then some tr1
      else
        let tr2 := tr1 ++ [Event.drawText (p.width - s) p.y_pos p.fg (some p.bg) p.text]
        let tr3 := tr2 ++ [Event.send (env.sendOk tr2.length)]
        let tr4 := tr3 ++ [Event.usleep (usleepArg p.scroll_delay_ms)]
        forLoop env p n (s + 1) tr4
    else some tr

/-- One sweep: the body of the `do` of lines 167-172. -/
def sweep (env : Env) (p : Plan) (tr : List Event) : Option (List Event) :=
  forLoop env p (p.total_len + p.width).toNat 0 (tr ++ [Event.fill p.bg])

/-- The loop `do ... while (run_forever && !interrupt_received)` of lines
166-173; `fuel` bounds the number of sweeps. -/
def doWhile (env : Env) (p : Plan) : Nat → List Event → Option (List Event)
  | 0, _ => none
  | fuel + 1, tr =>
    match sweep env p tr with
    | none => none
    | some tr1 =>
      if p.run_forever then
        let v := env.interrupt_received tr1.length
        let tr2 := tr1 ++ [Event.readInterrupt v]
        if v then some tr2 else doWhile env p fuel tr2
      else some tr1

/-- The mode dispatch of lines 165-180. -/
def render (env : Env) (p : Plan) (fuel : Nat) (tr : List Event) : Option (List Event) :=
  if p.scroll_delay_ms > 0 then doWhile env p fuel tr
  else
    let tr1 := tr ++ [Event.fill p.bg]
    let tr2 := tr1 ++ [Event.drawText 0 p.y_pos p.fg (some p.bg) p.text]
    some (tr2 ++ [Event.send (env.sendOk tr2.length)])

/-- Lines 182-186: `if (off_z > 0 && interrupt_received)` clear and send. -/
def cleanup (env : Env) (p : Plan) (tr : List Event) : List Event :=
  if p.off_z > 0 then
    let v := env.interrupt_received tr.length
    let tr1 := tr ++ [Event.readInterrupt v]
    if v then
      let tr2 := tr1 ++ [Event.clear]
      tr2 ++ [Event.send (env.sendOk tr2.length)]
    else tr1
  else tr

/-- Lines 188-193: close the socket, report an interrupt, return 0. -/
def finish (env : Env) (p : Plan) (tr : List Event) : Outcome :=
  let tr1 := tr ++ [Event.close p.fd]
  let v := env.interrupt_received tr1.length
  let tr2 := tr1 ++ [Event.readInterrupt v]
  if v then ⟨0, tr2 ++ [Event.stderr Msg.interrupted]⟩ else ⟨0, tr2⟩

/-- Lines 162-194: install the handlers, render, clean up, finish. -/
def execute (env : Env) (p : Plan) (fuel : Nat) (tr : List Event) : Option Outcome :=
  let tr1 := tr ++ [Event.signal 15, Event.signal 2]
  match render env p fuel tr1 with
  | none => none
  | some tr2 => some (finish env p (cleanup env p tr2))

/-- Lines 121-123: `if (height < 0) height = font.height();`. -/
def heightDefault (v : Vars) : Int :=
  if v.height < 0 then v.font.height else v.height

/-- What lines 116-137 leave behind when they do not return. -/
structure Display where
  vars : Vars
  height : Int
  fd : Int
  trace : List Event

/-- Lines 116-137: the font check, the height default, the size check, the
socket and the display object. -/
def configure (env : Env) (v : Vars) : Except Outcome Display :=
  if v.font.height < 0 then
    Except.error (usage (v.trace ++ [Event.stderr Msg.needFont]))
  else
    let height := heightDefault v
    if v.width < 1 ∨ height < 1 then
      Except.error (usage (v.trace ++ [Event.stderr Msg.unusualSize]))
    else
      let fd := env.openSocket v.host
      let tr1 := v.trace ++ [Event.openSocket v.host fd]
      if fd < 0 then
        Except.error ⟨1, tr1 ++ [Event.stderr Msg.cannotConnect]⟩
      else
        Except.ok ⟨v, height, fd,
          tr1 ++ [Event.newDisplay fd v.width height,
                  Event.setOffset v.off_x v.off_y v.off_z]⟩

/-- Lines 139-160: assemble the text, reject an empty one, centre it and
measure it with the dry run. -/
def prepare (env : Env) (d : Display) (args : List (List Char)) :
    Except Outcome (Plan × List Event) :=
  let text := eatLeadingSpaces (assemble args)
  if text = [] then
    Except.error ⟨1, d.trace ++ [Event.stderr Msg.emptyText]⟩
  else
    let v := d.vars
    let y_pos := (d.height - v.font.height).tdiv 2 + v.font.baseline
    let total_len := env.drawText v.font 0 y_pos v.fg none text
    Except.ok (⟨v.width, d.height, v.off_z, v.scroll_delay_ms, v.run_forever,
                 v.fg, v.bg, v.font, d.fd, text, y_pos, total_len⟩,
               d.trace ++ [Event.drawText 0 y_pos v.fg none text])

/-- Everything before line 162: the plan and the trace so far, or the
outcome of an early `return`. -/
def startup (env : Env) (opts : List Opt) (args : List (List Char)) :
    Except Outcome (Plan × List Event) :=
  match getoptLoop env (initVars env) opts with
  | Except.error out => Except.error out
  | Except.ok v =>
    match configure env v with
    | Except.error out => Except.error out
    | Except.ok d => prepare env d args

/-- The function `main`: `opts` are the options in `getopt` order, `args`
the positional arguments `argv[optind..argc)`; `none` means the fuel ran out
before the scroll loop ended. -/
def main (env : Env) (fuel : Nat) (opts : List Opt) (args : List (List Char)) :
    Option Outcome :=
  match startup env opts args with
  | Except.error out => some out
  | Except.ok (p, tr) => execute env p fuel tr

/-! ## Vocabulary of the specification -/

/-- The five variables a geometry or layer option can assign. -/
inductive Field where
  | width
  | height
  | off_x
  | off_y
  | off_z
deriving DecidableEq, Repr

/-- The value of a field among the variables. -/
def Vars.field (v : Vars) : Field → Int
  | Field.width => v.width
  | Field.height => v.height
  | Field.off_x => v.off_x
  | Field.off_y => v.off_y
  | Field.off_z => v.off_z

/-- The value an option supplies for a field, if it supplies one: a geometry
option supplies its components to the leading fields, a layer option
supplies `off_z`. -/
def supplies : Opt → Field → Option Int
  | Opt.g conv, Field.width => conv.get? 0
  | Opt.g conv, Field.height => conv.get? 1
  | Opt.g conv, Field.off_x => conv.get? 2
  | Opt.g conv, Field.off_y => conv.get? 3
  | Opt.g conv, Field.off_z => conv.get? 4
  | Opt.l n, Field.off_z => some n
  | _, _ => none

/-- The last value any option of the list supplies for a field. -/
def lastSupplied (fld : Field) : List Opt → Option Int
  | [] => none
  | opt :: rest =>
    match lastSupplied fld rest with
    | some x => some x
    | none => supplies opt fld

/-- The path of a font option. -/
def fontPath : Opt → Option (List Char)
  | Opt.f path => some path
  | _ => none

/-- The font after loading the given paths one after the other. -/
def fontAfter (env : Env) (font : Font) (paths : List (List Char)) : Font :=
  paths.foldl (fun fnt path => (env.loadFont fnt path).2) font

/-- The join the specification describes: one space between consecutive
tokens and none after the last. -/
def joinSpec : List (List Char) → List Char
  | [] => []
  | [tok] => tok
  | tok :: rest => tok ++ [' '] ++ joinSpec rest

/-- A call of `display.Send()`. -/
def Event.isSend : Event → Bool
  | Event.send _ => true
  | _ => false

/-- A call of `display.Fill`. -/
def Event.isFill : Event → Bool
  | Event.fill _ => true
  | _ => false

/-- A call of `display.Clear()`. -/
def Event.isClear : Event → Bool
  | Event.clear => true
  | _ => false

/-- A call of `DrawText`, the dry run included. -/
def Event.isDrawText : Event → Bool
  | Event.drawText _ _ _ _ _ => true
  | _ => false

/-- A call of `close`. -/
def Event.isClose : Event → Bool
  | Event.close _ => true
  | _ => false

/-- A sample of the interrupt flag that found it clear. -/
def Event.isClearRead : Event → Bool
  | Event.readInterrupt false => true
  | _ => false

/-- A `Send`, a `Fill` or a `DrawText`. -/
def Event.isFrameOp (e : Event) : Bool :=
  e.isSend || e.isFill || e.isDrawText

/-- A `Fill` or a `DrawText`: the operations that paint. -/
def Event.isPaint (e : Event) : Bool :=
  e.isFill || e.isDrawText

/-- One of the display operations `Fill`, `DrawText`, `Send`, `Clear`. -/
def Event.isDisplayOp (e : Event) : Bool :=
  e.isSend || e.isFill || e.isDrawText || e.isClear

/-- The display operations of a trace, in order. -/
def displayOps (tr : List Event) : List Event :=
  tr.filter Event.isDisplayOp

/-- The texts of the `DrawText` calls of a trace, in order. -/
def texts : List Event → List (List Char)
  | [] => []
  | Event.drawText _ _ _ _ text :: rest => text :: texts rest
  | _ :: rest => texts rest

/-- The number of events at logical time `T` or later that satisfy `P`. -/
def lateCount (P : Event → Bool) (T : Nat) (tr : List Event) : Nat :=
  ((tr.drop T).filter P).length

/-- Forget the status of a `Send`. -/
def Event.eraseStatus : Event → Event
  | Event.send _ => Event.send true
  | e => e

/-- Forget the status of every `Send` of an outcome. -/
def Outcome.eraseStatus (out : Outcome) : Outcome :=
  ⟨out.exit, out.trace.map Event.eraseStatus⟩

/-- The same world with a transport that reports success for every `Send`. -/
def Env.reliable (env : Env) : Env :=
  { env with sendOk := fun _ => true }

/-- The events the scroll loop of a plan can add to the trace. -/
def loopEvent (p : Plan) : Event → Bool
  | Event.fill c => decide (c = p.bg)
  | Event.drawText _ y fg bg text =>
    decide (y = p.y_pos) && decide (fg = p.fg) && decide (bg = some p.bg) &&
      decide (text = p.text)
  | Event.send _ => true
  | Event.usleep _ => true
  | Event.readInterrupt _ => true
  | _ => false

/-- The plan `prepare` builds from a display and a non-empty text. -/
def planOf (env : Env) (d : Display) (text : List Char) : Plan :=
  { width := d.vars.width, height := d.height, off_z := d.vars.off_z,
    scroll_delay_ms := d.vars.scroll_delay_ms, run_forever := d.vars.run_forever,
    fg := d.vars.fg, bg := d.vars.bg, font := d.vars.font, fd := d.fd, text := text,
    y_pos := (d.height - d.vars.font.height).tdiv 2 + d.vars.font.baseline,
    total_len := env.drawText d.vars.font 0
      ((d.height - d.vars.font.height).tdiv 2 + d.vars.font.baseline) d.vars.fg none text }

/-- The display `configure` leaves when none of its checks fails. -/
def displayOf (env : Env) (v : Vars) : Display :=
  ⟨v, heightDefault v, env.openSocket v.host,
    v.trace ++ [Event.openSocket v.host (env.openSocket v.host),
      Event.newDisplay (env.openSocket v.host) v.width (heightDefault v),
      Event.setOffset v.off_x v.off_y v.off_z]⟩

/-- The failures of lines 116-134: no font, a width or resolved height
below 1, no connection. -/
def configFails (env : Env) (v : Vars) : Prop :=
  v.font.height < 0 ∨ v.width < 1 ∨ heightDefault v < 1 ∨ env.openSocket v.host < 0

instance (env : Env) (v : Vars) : Decidable (configFails env v) := by
  unfold configFails
  infer_instance

/-- The dry-run `DrawText` of line 160. -/
def dryRun (p : Plan) : Event :=
  Event.drawText 0 p.y_pos p.fg none p.text

/-! ## Sample inputs -/

/-- A font of line height 10. -/
def sampleFont : Font := ⟨10, 8, 1⟩

/-- A world in which every font file loads as `sampleFont`, the socket opens
as descriptor 3, and every text measures 20 pixels. -/
def sampleEnv (intr : Nat → Bool) (ok : Nat → Bool) : Env :=
  { newFont := ⟨-1, 0, 0⟩,
    loadFont := fun _ _ => (true, sampleFont),
    openSocket := fun _ => 3,
    drawText := fun _ _ _ _ _ _ => 20,
    interrupt_received := intr,
    sendOk := ok }

/-- A run-once scrolling plan for a text of width 1 on a display of width 2. -/
def tinyPlan (off_z : Int) : Plan :=
  { width := 2, height := 10, off_z := off_z, scroll_delay_ms := 50,
    run_forever := false, fg := ⟨255, 255, 255⟩, bg := ⟨0, 0, 0⟩,
    font := sampleFont, fd := 3, text := ['I', ' '], y_pos := 8,
    total_len := 1 }

/-- A world in which no interrupt arrives and every send succeeds. -/
def quietEnv : Env := sampleEnv (fun _ => false) (fun _ => true)

/-- A scrolling plan for a text of width 20 on a display of width 45. -/
def samplePlan (delay : Int) (forever : Bool) (off_z : Int) : Plan :=
  { width := 45, height := 10, off_z := off_z, scroll_delay_ms := delay,
    run_forever := forever, fg := ⟨255, 255, 255⟩, bg := ⟨0, 0, 0⟩,
    font := sampleFont, fd := 3, text := ['H', 'I', ' '], y_pos := 8,
    total_len := 20 }

/-! ## The option loop -/

theorem getoptLoop_cons (env : Env) (v : Vars) (opt : Opt) (rest : List Opt) :
    getoptLoop env v (opt :: rest) =
      match optStep env v opt with
      | Except.error out => Except.error out
      | Except.ok v1 => getoptLoop env v1 rest := rfl

/-- Every early return of the option loop goes through `usage`: exit code 1,
the help text printed, and nothing but messages added to the trace. -/
theorem optStep_error (env : Env) (v : Vars) (opt : Opt) (out : Outcome)
    (h : optStep env v opt = Except.error out) :
    out.exit = 1 ∧ Event.stderr Msg.usageText ∈ out.trace ∧
      ∃ ms : List Msg, out.trace = v.trace ++ ms.map Event.stderr := by
  cases opt with
  | g conv =>
    simp only [optStep] at h
    split at h
    · cases h
      exact ⟨rfl, by simp [usage], [Msg.invalidSizeSpec, Msg.usageText], by simp [usage]⟩
    · cases h
  | c conv =>
    simp only [optStep] at h
    split at h
    · cases h
    · cases h
      exact ⟨rfl, by simp [usage], [Msg.fgParseError, Msg.usageText], by simp [usage]⟩
  | b conv =>
    simp only [optStep] at h
    split at h
    · cases h
    · cases h
      exact ⟨rfl, by simp [usage], [Msg.bgParseError, Msg.usageText], by simp [usage]⟩
  | other =>
    simp only [optStep] at h
    cases h; exact ⟨rfl, by simp [usage], [Msg.usageText], by simp [usage]⟩
  | f path =>
    simp only [optStep] at h
    split at h <;> cases h
  | s n =>
    simp only [optStep] at h
    split at h <;> cases h
  | h host => simp [optStep] at h
  | o => simp [optStep] at h
  | l n => simp [optStep] at h

/-- An option that does not return only adds messages to the trace. -/
theorem optStep_ok_trace (env : Env) (v v1 : Vars) (opt : Opt)
    (h : optStep env v opt = Except.ok v1) :
    ∃ ms : List Msg, v1.trace = v.trace ++ ms.map Event.stderr := by
  cases opt with
  | g conv =>
    simp only [optStep] at h
    split at h
    · cases h
    · cases h
      refine ⟨[], ?_⟩
      rcases conv with _ | ⟨w, _ | ⟨hh, _ | ⟨x, _ | ⟨y, _ | ⟨z, t⟩⟩⟩⟩⟩ <;> simp [sscanfGeometry]
  | c conv =>
    simp only [optStep] at h
    split at h
    · cases h; exact ⟨[], by simp⟩
    · cases h
  | b conv =>
    simp only [optStep] at h
    split at h
    · cases h; exact ⟨[], by simp⟩
    · cases h
  | other => simp [optStep] at h
  | f path =>
    simp only [optStep] at h
    split at h
    · cases h; exact ⟨[], by simp⟩
    · cases h; exact ⟨[Msg.couldntLoadFont], by simp⟩
  | s n =>
    simp only [optStep] at h
    split at h <;> (cases h; exact ⟨[], by simp⟩)
  | h host => simp only [optStep] at h; cases h; exact ⟨[], by simp⟩
  | o => simp only [optStep] at h; cases h; exact ⟨[], by simp⟩
  | l n => simp only [optStep] at h; cases h; exact ⟨[], by simp⟩

theorem getoptLoop_ok_trace (env : Env) (opts : List Opt) :
    ∀ v v1 : Vars, getoptLoop env v opts = Except.ok v1 →
      ∃ ms : List Msg, v1.trace = v.trace ++ ms.map Event.stderr := by
  induction opts with
  | nil =>
    intro v v1 h
    simp only [getoptLoop] at h
    cases h
    exact ⟨[], by simp⟩
  | cons opt rest ih =>
    intro v v1 h
    rw [getoptLoop_cons] at h
    cases hs : optStep env v opt with
    | error out => rw [hs] at h; cases h
    | ok v2 =>
      rw [hs] at h
      obtain ⟨ms1, h1⟩ := optStep_ok_trace env v v2 opt hs
      obtain ⟨ms2, h2⟩ := ih v2 v1 h
      exact ⟨ms1 ++ ms2, by rw [h2, h1]; simp⟩

theorem getoptLoop_error (env : Env) (opts : List Opt) :
    ∀ (v : Vars) (out : Outcome), getoptLoop env v opts = Except.error out →
      out.exit = 1 ∧ Event.stderr Msg.usageText ∈ out.trace ∧
        ∃ ms : List Msg, out.trace = v.trace ++ ms.map Event.stderr := by
  induction opts with
  | nil => intro v out h; simp [getoptLoop] at h
  | cons opt rest ih =>
    intro v out h
    rw [getoptLoop_cons] at h
    cases hs : optStep env v opt with
    | error out1 =>
      rw [hs] at h
      cases h
      exact optStep_error env v opt out hs
    | ok v2 =>
      rw [hs] at h
      obtain ⟨ms1, h1⟩ := optStep_ok_trace env v v2 opt hs
      obtain ⟨he, hu, ms2, h2⟩ := ih v2 out h
      exact ⟨he, hu, ms1 ++ ms2, by rw [h2, h1]; simp⟩

/-- One option leaves every field at the value it supplies, or untouched. -/
theorem optStep_field (env : Env) (v v1 : Vars) (opt : Opt) (fld : Field)
    (h : optStep env v opt = Except.ok v1) :
    v1.field fld = (supplies opt fld).getD (v.field fld) := by
  cases opt with
  | g conv =>
    simp only [optStep] at h
    split at h
    · cases h
    · rename_i hlen
      cases h
      rcases conv with _ | ⟨w, _ | ⟨hh, _ | ⟨x, _ | ⟨y, _ | ⟨z, t⟩⟩⟩⟩⟩ <;>
        cases fld <;> simp [sscanfGeometry, supplies, Vars.field] at hlen ⊢
  | c conv =>
    simp only [optStep] at h
    split at h
    · cases h; cases fld <;> simp [supplies, Vars.field]
    · cases h
  | b conv =>
    simp only [optStep] at h
    split at h
    · cases h; cases fld <;> simp [supplies, Vars.field]
    · cases h
  | other => simp [optStep] at h
  | f path =>
    simp only [optStep] at h
    split at h <;> (cases h; cases fld <;> simp [supplies, Vars.field])
  | s n =>
    simp only [optStep] at h
    split at h <;> (cases h; cases fld <;> simp [supplies, Vars.field])
  | h host => simp only [optStep] at h; cases h; cases fld <;> simp [supplies, Vars.field]
  | o => simp only [optStep] at h; cases h; cases fld <;> simp [supplies, Vars.field]
  | l n => simp only [optStep] at h; cases h; cases fld <;> simp [supplies, Vars.field]

/-- After the option loop every field holds the last value supplied for it,
or the value it had before. -/
theorem getoptLoop_field (env : Env) (fld : Field) (opts : List Opt) :
    ∀ v v1 : Vars, getoptLoop env v opts = Except.ok v1 →
      v1.field fld = (lastSupplied fld opts).getD (v.field fld) := by
  induction opts with
  | nil =>
    intro v v1 h
    simp only [getoptLoop] at h
    cases h
    simp [lastSupplied]
  | cons opt rest ih =>
    intro v v1 h
    rw [getoptLoop_cons] at h
    cases hs : optStep env v opt with
    | error out => rw [hs] at h; cases h
    | ok v2 =>
      rw [hs] at h
      have h1 := optStep_field env v v2 opt fld hs
      have h2 := ih v2 v1 h
      rw [h2, h1]
      simp only [lastSupplied]
      cases lastSupplied fld rest <;> simp

/-- The font after the option loop is the result of the font options alone,
in their order. -/
theorem getoptLoop_font (env : Env) (opts : List Opt) :
    ∀ v v1 : Vars, getoptLoop env v opts = Except.ok v1 →
      v1.font = fontAfter env v.font (opts.filterMap fontPath) := by
  induction opts with
  | nil =>
    intro v v1 h
    simp only [getoptLoop] at h
    cases h
    simp [fontAfter]
  | cons opt rest ih =>
    intro v v1 h
    rw [getoptLoop_cons] at h
    cases hs : optStep env v opt with
    | error out => rw [hs] at h; cases h
    | ok v2 =>
      rw [hs] at h
      rw [ih v2 v1 h]
      cases opt with
      | g conv =>
        simp only [optStep] at hs
        split at hs
        · cases hs
        · cases hs
          rcases conv with _ | ⟨w, _ | ⟨hh, _ | ⟨x, _ | ⟨y, _ | ⟨z, t⟩⟩⟩⟩⟩ <;>
            simp [sscanfGeometry, fontPath]
      | c conv =>
        simp only [optStep] at hs
        split at hs
        · cases hs; simp [fontPath]
        · cases hs
      | b conv =>
        simp only [optStep] at hs
        split at hs
        · cases hs; simp [fontPath]
        · cases hs
      | other => simp [optStep] at hs
      | f path =>
        simp only [optStep] at hs
        split at hs <;> (cases hs; simp [fontPath, fontAfter])
      | s n =>
        simp only [optStep] at hs
        split at hs <;> (cases hs; simp [fontPath])
      | h host => simp only [optStep] at hs; cases hs; simp [fontPath]
      | o => simp only [optStep] at hs; cases hs; simp [fontPath]
      | l n => simp only [optStep] at hs; cases hs; simp [fontPath]

/-- The delay after one option: a scroll option sets it as resolved, any
other option leaves it. -/
theorem optStep_delay (env : Env) (v v1 : Vars) (opt : Opt)
    (h : optStep env v opt = Except.ok v1) :
    (∃ d, opt = Opt.s d ∧ v1.scroll_delay_ms = if 0 < d ∧ d < 10 then 10 else d) ∨
    ((∀ d, opt ≠ Opt.s d) ∧ v1.scroll_delay_ms = v.scroll_delay_ms) := by
  cases opt with
  | g conv =>
    simp only [optStep] at h
    split at h
    · cases h
    · cases h
      right
      refine ⟨by simp, ?_⟩
      rcases conv with _ | ⟨w, _ | ⟨hh, _ | ⟨x, _ | ⟨y, _ | ⟨z, t⟩⟩⟩⟩⟩ <;> simp [sscanfGeometry]
  | c conv =>
    simp only [optStep] at h
    split at h
    · cases h; right; simp
    · cases h
  | b conv =>
    simp only [optStep] at h
    split at h
    · cases h; right; simp
    · cases h
  | other => simp [optStep] at h
  | f path =>
    simp only [optStep] at h
    split at h <;> (cases h; right; simp)
  | s n =>
    left
    refine ⟨n, rfl, ?_⟩
    simp only [optStep] at h
    split at h
    · rename_i hc
      cases h
      simp [hc.1, hc.2]
    · rename_i hc
      cases h
      have hc1 : ¬(0 < n ∧ n < 10) := hc
      simp [hc1]
  | h host => simp only [optStep] at h; cases h; right; simp
  | o => simp only [optStep] at h; cases h; right; simp
  | l n => simp only [optStep] at h; cases h; right; simp

/-- The plan invariant on the delay survives the option loop when no scroll
option asks for a negative delay. -/
theorem getoptLoop_delay (env : Env) (opts : List Opt) :
    ∀ v v1 : Vars, (v.scroll_delay_ms = 0 ∨ 10 ≤ v.scroll_delay_ms) →
      (∀ d, Opt.s d ∈ opts → 0 ≤ d) → getoptLoop env v opts = Except.ok v1 →
      v1.scroll_delay_ms = 0 ∨ 10 ≤ v1.scroll_delay_ms := by
  induction opts with
  | nil =>
    intro v v1 hinv _ h
    simp only [getoptLoop] at h
    cases h
    exact hinv
  | cons opt rest ih =>
    intro v v1 hinv hnn h
    rw [getoptLoop_cons] at h
    cases hs : optStep env v opt with
    | error out => rw [hs] at h; cases h
    | ok v2 =>
      rw [hs] at h
      refine ih v2 v1 ?_ (fun d hd => hnn d (List.mem_cons_of_mem _ hd)) h
      rcases optStep_delay env v v2 opt hs with ⟨d, hd, hv⟩ | ⟨_, hv⟩
      · have h0 : 0 ≤ d := hnn d (by rw [hd]; exact List.mem_cons_self _ _)
        rw [hv]
        split <;> omega
      · rw [hv]; exact hinv

/-! ## Claims about the option loop -/

/-- C2. Delay resolution of the scroll option: a requested delay `d` with
`0 < d < 10` resolves to exactly 10, a delay `d = 0` or `d ≥ 10` resolves to
`d`; hence for a non-negative `d` the resolved delay is 0 or at least 10, and
so is the delay after a whole option loop none of whose scroll options asks
for a negative delay. -/
theorem delay_resolution (env : Env) (v : Vars) (d : Int) :
    (∃ v1, optStep env v (Opt.s d) = Except.ok v1 ∧
      (0 < d → d < 10 → v1.scroll_delay_ms = 10) ∧
      (d = 0 ∨ 10 ≤ d → v1.scroll_delay_ms = d) ∧
      (0 ≤ d → v1.scroll_delay_ms = 0 ∨ 10 ≤ v1.scroll_delay_ms)) ∧
    (∀ (opts : List Opt) (v1 : Vars), (∀ n, Opt.s n ∈ opts → 0 ≤ n) →
      getoptLoop env (initVars env) opts = Except.ok v1 →
      v1.scroll_delay_ms = 0 ∨ 10 ≤ v1.scroll_delay_ms) := by
  constructor
  · by_cases hc : d > 0 ∧ d < 10
    · refine ⟨{ v with scroll_delay_ms := 10 }, by simp [optStep, hc], ?_, ?_, ?_⟩
      · intro _ _; rfl
      · intro h; simp only; omega
      · intro _; right; simp
    · refine ⟨{ v with scroll_delay_ms := d }, by simp only [optStep, if_neg hc], ?_, ?_, ?_⟩
      · intro h1 h2; exact absurd ⟨h1, h2⟩ hc
      · intro _; rfl
      · intro h; simp only; omega
  · intro opts v1 hnn h
    exact getoptLoop_delay env opts (initVars env) v1 (by right; simp [initVars]) hnn h

/-- C2, at the requested delay 5 and on the option list `-s 5 -s 0 -s 250`. -/
theorem delay_resolution_witness :
    (∃ v1, optStep quietEnv (initVars quietEnv) (Opt.s 5) = Except.ok v1 ∧
      v1.scroll_delay_ms = 10) ∧
    (∃ v1, getoptLoop quietEnv (initVars quietEnv) [Opt.s 5, Opt.s 0, Opt.s 250] =
      Except.ok v1 ∧ (v1.scroll_delay_ms = 0 ∨ 10 ≤ v1.scroll_delay_ms)) := by
  have h := delay_resolution quietEnv (initVars quietEnv) 5
  obtain ⟨⟨v1, h1, h2, _, _⟩, h3⟩ := h
  refine ⟨⟨v1, h1, h2 (by decide) (by decide)⟩, ?_⟩
  exact ⟨_, rfl, h3 [Opt.s 5, Opt.s 0, Opt.s 250] _ (by
    intro n hn
    simp only [List.mem_cons, Opt.s.injEq, List.mem_singleton, List.not_mem_nil, or_false] at hn
    omega) rfl⟩

theorem forLoop_zero (env : Env) (p : Plan) (s : Int) (tr : List Event) :
    forLoop env p 0 s tr =
      if s < p.total_len + p.width then
        if env.interrupt_received tr.length then some (tr ++ [Event.readInterrupt true]) else none
      else some tr := by
  simp only [forLoop]
  split
  · cases hv : env.interrupt_received tr.length <;> simp
  · rfl

theorem forLoop_succ (env : Env) (p : Plan) (n : Nat) (s : Int) (tr : List Event) :
    forLoop env p (n + 1) s tr =
      if s < p.total_len + p.width then
        if env.interrupt_received tr.length then some (tr ++ [Event.readInterrupt true])
        else forLoop env p n (s + 1)
          (tr ++ [Event.readInterrupt false,
                  Event.drawText (p.width - s) p.y_pos p.fg (some p.bg) p.text,
                  Event.send (env.sendOk (tr.length + 2)),
                  Event.usleep (usleepArg p.scroll_delay_ms)])
      else some tr := by
  simp only [forLoop]
  split
  · cases hv : env.interrupt_received tr.length <;> simp
  · rfl

/-- With enough iterations the `for` loop ends. -/
theorem forLoop_total (env : Env) (p : Plan) (n : Nat) :
    ∀ (s : Int) (tr : List Event), (p.total_len + p.width - s).toNat ≤ n →
      ∃ tr1, forLoop env p n s tr = some tr1 := by
  induction n with
  | zero =>
    intro s tr hn
    rw [forLoop_zero]
    have : ¬ s < p.total_len + p.width := by omega
    simp [this]
  | succ n ih =>
    intro s tr hn
    rw [forLoop_succ]
    split
    · split
      · exact ⟨_, rfl⟩
      · exact ih _ _ (by omega)
    · exact ⟨_, rfl⟩

/-- The `for` loop only appends to the trace, and only loop events. -/
theorem forLoop_events (env : Env) (p : Plan) (n : Nat) :
    ∀ (s : Int) (tr tr1 : List Event), forLoop env p n s tr = some tr1 →
      ∃ ev, tr1 = tr ++ ev ∧ (∀ e ∈ ev, loopEvent p e = true) ∧
        ∀ e ∈ ev, e.isFill = false := by
  induction n with
  | zero =>
    intro s tr tr1 h
    rw [forLoop_zero] at h
    split at h
    · split at h
      · cases h
        exact ⟨[Event.readInterrupt true], rfl, by simp [loopEvent], by simp [Event.isFill]⟩
      · cases h
    · cases h
      exact ⟨[], by simp, by simp, by simp⟩
  | succ n ih =>
    intro s tr tr1 h
    rw [forLoop_succ] at h
    split at h
    · split at h
      · cases h
        exact ⟨[Event.readInterrupt true], rfl, by simp [loopEvent], by simp [Event.isFill]⟩
      · obtain ⟨ev, hev, hall, hnf⟩ := ih _ _ _ h
        refine ⟨[Event.readInterrupt false,
                  Event.drawText (p.width - s) p.y_pos p.fg (some p.bg) p.text,
                  Event.send (env.sendOk (tr.length + 2)),
                  Event.usleep (usleepArg p.scroll_delay_ms)] ++ ev,
          by rw [hev, List.append_assoc], ?_, ?_⟩
        · intro e he
          rcases List.mem_append.1 he with h1 | h1
          · simp only [List.mem_cons, List.mem_singleton, List.not_mem_nil, or_false] at h1
            rcases h1 with rfl | rfl | rfl | rfl <;> simp [loopEvent]
          · exact hall e h1
        · intro e he
          rcases List.mem_append.1 he with h1 | h1
          · simp only [List.mem_cons, List.mem_singleton, List.not_mem_nil, or_false] at h1
            rcases h1 with rfl | rfl | rfl | rfl <;> simp [Event.isFill]
          · exact hnf e h1
    · cases h
      exact ⟨[], by simp, by simp, by simp⟩

theorem lateCount_of_length_le (P : Event → Bool) (T : Nat) (tr : List Event)
    (h : tr.length ≤ T) : lateCount P T tr = 0 := by
  unfold lateCount
  rw [List.drop_of_length_le h]
  rfl

theorem lateCount_append_le (P : Event → Bool) (T : Nat) (tr ev : List Event) :
    lateCount P T (tr ++ ev) ≤ lateCount P T tr + (ev.filter P).length := by
  unfold lateCount
  rw [List.drop_append_eq_append_drop, List.filter_append, List.length_append]
  have h := (List.drop_sublist (T - tr.length) ev).filter P
  have := h.length_le
  omega

theorem lateCount_append_of_le (P : Event → Bool) (T : Nat) (tr ev : List Event)
    (h : T ≤ tr.length) :
    lateCount P T (tr ++ ev) = lateCount P T tr + (ev.filter P).length := by
  unfold lateCount
  rw [List.drop_append_eq_append_drop, List.filter_append, List.length_append]
  have h0 : T - tr.length = 0 := by omega
  rw [h0, List.drop_zero]

/-- Once the flag is up, the `for` loop adds nothing that `P` counts; before
that, at most one counted event falls at time `T` or later.  `P` may count
at most one event of an iteration and no flag read. -/
theorem forLoop_late (env : Env) (p : Plan) (P : Event → Bool) (T : Nat)
    (hflag : ∀ t, T ≤ t → env.interrupt_received t = true)
    (hread : ∀ v, P (Event.readInterrupt v) = false)
    (hsleep : ∀ u, P (Event.usleep u) = false)
    (hone : ∀ x y fg bg text ok,
      (P (Event.drawText x y fg bg text) && P (Event.send ok)) = false)
    (n : Nat) :
    ∀ (s : Int) (tr tr1 : List Event), forLoop env p n s tr = some tr1 →
      (T ≤ tr.length → lateCount P T tr1 = lateCount P T tr) ∧
      (tr.length < T → lateCount P T tr1 ≤ 1) := by
  have hstop : ∀ tr : List Event,
      lateCount P T (tr ++ [Event.readInterrupt true]) ≤ lateCount P T tr ∧
      (T ≤ tr.length →
        lateCount P T (tr ++ [Event.readInterrupt true]) = lateCount P T tr) := by
    intro tr
    constructor
    · have := lateCount_append_le P T tr [Event.readInterrupt true]
      simpa [hread] using this
    · intro h
      rw [lateCount_append_of_le P T tr _ h]
      simp [hread]
  induction n with
  | zero =>
    intro s tr tr1 h
    rw [forLoop_zero] at h
    split at h
    · split at h
      · cases h
        refine ⟨(hstop tr).2, fun hlt => ?_⟩
        have := (hstop tr).1
        rw [lateCount_of_length_le P T tr (by omega)] at this
        omega
      · cases h
    · cases h
      refine ⟨fun _ => rfl, fun hlt => ?_⟩
      rw [lateCount_of_length_le P T tr (by omega)]
      omega
  | succ n ih =>
    intro s tr tr1 h
    rw [forLoop_succ] at h
    split at h
    · split at h
      · cases h
        refine ⟨(hstop tr).2, fun hlt => ?_⟩
        have := (hstop tr).1
        rw [lateCount_of_length_le P T tr (by omega)] at this
        omega
      · rename_i hv
        have hlt : tr.length < T := by
          by_contra hc
          exact hv (hflag _ (by omega))
        refine ⟨fun hle => absurd hlt (by omega), fun _ => ?_⟩
        obtain ⟨ih1, ih2⟩ := ih _ _ _ h
        have hfour : lateCount P T
            (tr ++ [Event.readInterrupt false,
              Event.drawText (p.width - s) p.y_pos p.fg (some p.bg) p.text,
              Event.send (env.sendOk (tr.length + 2)),
              Event.usleep (usleepArg p.scroll_delay_ms)]) ≤ 1 := by
          have h1 := lateCount_append_le P T tr
            [Event.readInterrupt false,
              Event.drawText (p.width - s) p.y_pos p.fg (some p.bg) p.text,
              Event.send (env.sendOk (tr.length + 2)),
              Event.usleep (usleepArg p.scroll_delay_ms)]
          rw [lateCount_of_length_le P T tr (by omega)] at h1
          have h2 := hone (p.width - s) p.y_pos p.fg (some p.bg) p.text
            (env.sendOk (tr.length + 2))
          have h3 : ([Event.readInterrupt false,
              Event.drawText (p.width - s) p.y_pos p.fg (some p.bg) p.text,
              Event.send (env.sendOk (tr.length + 2)),
              Event.usleep (usleepArg p.scroll_delay_ms)].filter P).length ≤ 1 := by
            simp only [List.filter_cons, hread, hsleep, List.filter_nil]
            cases hd : P (Event.drawText (p.width - s) p.y_pos p.fg (some p.bg) p.text) <;>
              cases hs : P (Event.send (env.sendOk (tr.length + 2))) <;>
              simp [hd, hs] at h2 ⊢
          omega
        by_cases hc : T ≤ (tr ++ [Event.readInterrupt false,
              Event.drawText (p.width - s) p.y_pos p.fg (some p.bg) p.text,
              Event.send (env.sendOk (tr.length + 2)),
              Event.usleep (usleepArg p.scroll_delay_ms)]).length
        · rw [ih1 hc]; exact hfour
        · exact ih2 (by omega)
    · cases h
      refine ⟨fun _ => rfl, fun hlt => ?_⟩
      rw [lateCount_of_length_le P T tr (by omega)]
      omega

/-! ## The `do ... while` loop -/

theorem doWhile_succ (env : Env) (p : Plan) (fuel : Nat) (tr : List Event) :
    doWhile env p (fuel + 1) tr =
      match sweep env p tr with
      | none => none
      | some tr1 =>
        if p.run_forever then
          if env.interrupt_received tr1.length then some (tr1 ++ [Event.readInterrupt true])
          else doWhile env p fuel (tr1 ++ [Event.readInterrupt false])
        else some tr1 := by
  simp only [doWhile]
  cases sweep env p tr with
  | none => rfl
  | some tr1 =>
    simp only
    cases p.run_forever
    · simp
    · cases hv : env.interrupt_received tr1.length <;> simp

/-- A sweep always ends, having added the fill and then loop events only. -/
theorem sweep_events (env : Env) (p : Plan) (tr : List Event) :
    ∃ ev, sweep env p tr = some (tr ++ Event.fill p.bg :: ev) ∧
      (∀ e ∈ ev, loopEvent p e = true) ∧ ∀ e ∈ ev, e.isFill = false := by
  obtain ⟨tr1, h1⟩ := forLoop_total env p (p.total_len + p.width).toNat 0
    (tr ++ [Event.fill p.bg]) (by simp)
  obtain ⟨ev, hev, hall, hnf⟩ := forLoop_events env p _ _ _ _ h1
  refine ⟨ev, ?_, hall, hnf⟩
  unfold sweep
  rw [h1, hev]
  simp

/-- The scroll loop only appends to the trace, and only loop events. -/
theorem doWhile_events (env : Env) (p : Plan) (fuel : Nat) :
    ∀ (tr tr1 : List Event), doWhile env p fuel tr = some tr1 →
      ∃ ev, tr1 = tr ++ ev ∧ ∀ e ∈ ev, loopEvent p e = true := by
  induction fuel with
  | zero => intro tr tr1 h; simp [doWhile] at h
  | succ fuel ih =>
    intro tr tr1 h
    rw [doWhile_succ] at h
    obtain ⟨ev, hsw, hall, _⟩ := sweep_events env p tr
    rw [hsw] at h
    simp only at h
    have hfill : ∀ e ∈ Event.fill p.bg :: ev, loopEvent p e = true := by
      intro e he
      rcases List.mem_cons.1 he with rfl | h1
      · simp [loopEvent]
      · exact hall e h1
    split at h
    · split at h
      · cases h
        refine ⟨Event.fill p.bg :: ev ++ [Event.readInterrupt true], by simp, ?_⟩
        intro e he
        rcases List.mem_append.1 he with h1 | h1
        · exact hfill e h1
        · simp only [List.mem_singleton] at h1
          subst h1
          rfl
      · obtain ⟨ev2, hev2, hall2⟩ := ih _ _ h
        refine ⟨Event.fill p.bg :: ev ++ [Event.readInterrupt false] ++ ev2,
          by rw [hev2]; simp, ?_⟩
        intro e he
        rcases List.mem_append.1 he with h1 | h1
        · rcases List.mem_append.1 h1 with h2 | h2
          · exact hfill e h2
          · simp only [List.mem_singleton] at h2
            subst h2
            rfl
        · exact hall2 e h1
    · cases h
      exact ⟨Event.fill p.bg :: ev, rfl, hfill⟩

/-- Once the flag is up for good, the scroll loop ends: `T - tr.length + 1`
sweeps are enough fuel. -/
theorem doWhile_terminates (env : Env) (p : Plan) (T : Nat)
    (hflag : ∀ t, T ≤ t → env.interrupt_received t = true) (fuel : Nat) :
    ∀ tr : List Event, T - tr.length < fuel → ∃ tr1, doWhile env p fuel tr = some tr1 := by
  induction fuel with
  | zero => intro tr h; omega
  | succ fuel ih =>
    intro tr h
    rw [doWhile_succ]
    obtain ⟨ev, hsw, _, _⟩ := sweep_events env p tr
    rw [hsw]
    simp only
    split
    · split
      · exact ⟨_, rfl⟩
      · rename_i hv
        have hlt : (tr ++ Event.fill p.bg :: ev).length < T := by
          by_contra hc
          exact hv (hflag _ (by omega))
        apply ih
        simp only [List.length_append, List.length_cons, List.length_singleton] at hlt ⊢
        omega
    · exact ⟨_, rfl⟩

/-- In run-once mode the scroll loop ends after one sweep. -/
theorem doWhile_once (env : Env) (p : Plan) (ho : p.run_forever = false) (fuel : Nat)
    (tr : List Event) : ∃ tr1, doWhile env p (fuel + 1) tr = some tr1 := by
  rw [doWhile_succ]
  obtain ⟨ev, hsw, _, _⟩ := sweep_events env p tr
  rw [hsw]
  simp [ho]

/-- From the moment the flag is up for good, the scroll loop adds at most
one event that `P` counts. -/
theorem doWhile_late (env : Env) (p : Plan) (P : Event → Bool) (T : Nat)
    (hflag : ∀ t, T ≤ t → env.interrupt_received t = true)
    (hread : ∀ v, P (Event.readInterrupt v) = false)
    (hsleep : ∀ u, P (Event.usleep u) = false)
    (hone : ∀ x y fg bg text ok,
      (P (Event.drawText x y fg bg text) && P (Event.send ok)) = false)
    (fuel : Nat) :
    ∀ (tr tr1 : List Event), tr.length ≤ T → doWhile env p fuel tr = some tr1 →
      lateCount P T tr1 ≤ 1 := by
  induction fuel with
  | zero => intro tr tr1 _ h; simp [doWhile] at h
  | succ fuel ih =>
    intro tr tr1 hle h
    rw [doWhile_succ] at h
    cases hsw : sweep env p tr with
    | none => rw [hsw] at h; cases h
    | some tr2 =>
      rw [hsw] at h
      simp only at h
      unfold sweep at hsw
      obtain ⟨l1, l2⟩ := forLoop_late env p P T hflag hread hsleep hone _ _ _ _ hsw
      obtain ⟨ev, hev, _, _⟩ := forLoop_events env p _ _ _ _ hsw
      have hlen : tr.length + 1 ≤ tr2.length := by
        rw [hev]
        simp only [List.length_append, List.length_singleton]
        omega
      have hfill : lateCount P T (tr ++ [Event.fill p.bg]) ≤ 1 := by
        have h1 := lateCount_append_le P T tr [Event.fill p.bg]
        rw [lateCount_of_length_le P T tr hle] at h1
        have h2 : ([Event.fill p.bg].filter P).length ≤ 1 := by
          have := (List.filter_sublist (p := P) [Event.fill p.bg]).length_le
          simpa using this
        omega
      have h2 : lateCount P T tr2 ≤ 1 := by
        by_cases hc : T ≤ (tr ++ [Event.fill p.bg]).length
        · rw [l1 hc]; exact hfill
        · exact l2 (by omega)
      have hread1 : ∀ v, lateCount P T (tr2 ++ [Event.readInterrupt v]) ≤ lateCount P T tr2 := by
        intro v
        have := lateCount_append_le P T tr2 [Event.readInterrupt v]
        simpa [hread] using this
      split at h
      · split at h
        · cases h
          have := hread1 true
          omega
        · rename_i hv
          have hlt : tr2.length < T := by
            by_contra hc
            exact hv (hflag _ (by omega))
          exact ih _ _ (by simp only [List.length_append, List.length_singleton]; omega) h
      · cases h
        exact h2

theorem lateCount_append_none (P : Event → Bool) (T : Nat) (tr ev : List Event)
    (h : ∀ e ∈ ev, P e = false) : lateCount P T (tr ++ ev) = lateCount P T tr := by
  unfold lateCount
  rw [List.drop_append_eq_append_drop, List.filter_append, List.length_append]
  have h0 : (ev.drop (T - tr.length)).filter P = [] := by
    rw [List.filter_eq_nil_iff]
    intro e he
    rw [h e (List.mem_of_mem_drop he)]
    simp
  rw [h0]
  rfl

/-- Once the flag is up for good, no later sample of the `for` loop finds it
clear. -/
theorem forLoop_reads (env : Env) (p : Plan) (T : Nat)
    (hflag : ∀ t, T ≤ t → env.interrupt_received t = true) (n : Nat) :
    ∀ (s : Int) (tr tr1 : List Event), forLoop env p n s tr = some tr1 →
      lateCount Event.isClearRead T tr1 = lateCount Event.isClearRead T tr := by
  have hstop : ∀ tr : List Event,
      lateCount Event.isClearRead T (tr ++ [Event.readInterrupt true]) =
        lateCount Event.isClearRead T tr := by
    intro tr
    apply lateCount_append_none
    intro e he
    simp only [List.mem_singleton] at he
    subst he
    rfl
  induction n with
  | zero =>
    intro s tr tr1 h
    rw [forLoop_zero] at h
    split at h
    · split at h
      · cases h; exact hstop tr
      · cases h
    · cases h; rfl
  | succ n ih =>
    intro s tr tr1 h
    rw [forLoop_succ] at h
    split at h
    · split at h
      · cases h; exact hstop tr
      · rename_i hv
        have hlt : tr.length < T := by
          by_contra hc
          exact hv (hflag _ (by omega))
        rw [ih _ _ _ h]
        rw [show tr ++ [Event.readInterrupt false,
              Event.drawText (p.width - s) p.y_pos p.fg (some p.bg) p.text,
              Event.send (env.sendOk (tr.length + 2)),
              Event.usleep (usleepArg p.scroll_delay_ms)] =
            (tr ++ [Event.readInterrupt false]) ++
              [Event.drawText (p.width - s) p.y_pos p.fg (some p.bg) p.text,
              Event.send (env.sendOk (tr.length + 2)),
              Event.usleep (usleepArg p.scroll_delay_ms)] by simp]
        rw [lateCount_append_none, lateCount_of_length_le, lateCount_of_length_le]
        · omega
        · simp only [List.length_append, List.length_singleton]; omega
        · intro e he
          simp only [List.mem_cons, List.mem_singleton, List.not_mem_nil, or_false] at he
          rcases he with rfl | rfl | rfl <;> rfl
    · cases h; rfl

/-- Once the flag is up for good, no later sample of the scroll loop finds it
clear: no repeat decision and no iteration goes ahead any more. -/
theorem doWhile_reads (env : Env) (p : Plan) (T : Nat)
    (hflag : ∀ t, T ≤ t → env.interrupt_received t = true) (fuel : Nat) :
    ∀ (tr tr1 : List Event), doWhile env p fuel tr = some tr1 →
      lateCount Event.isClearRead T tr1 = lateCount Event.isClearRead T tr := by
  induction fuel with
  | zero => intro tr tr1 h; simp [doWhile] at h
  | succ fuel ih =>
    intro tr tr1 h
    rw [doWhile_succ] at h
    cases hsw : sweep env p tr with
    | none => rw [hsw] at h; cases h
    | some tr2 =>
      rw [hsw] at h
      simp only at h
      unfold sweep at hsw
      have h2 : lateCount Event.isClearRead T tr2 = lateCount Event.isClearRead T tr := by
        rw [forLoop_reads env p T hflag _ _ _ _ hsw]
        apply lateCount_append_none
        intro e he
        simp only [List.mem_singleton] at he
        subst he
        rfl
      split at h
      · split at h
        · cases h
          rw [← h2]
          apply lateCount_append_none
          intro e he
          simp only [List.mem_singleton] at he
          subst he
          rfl
        · rename_i hv
          have hlt : tr2.length < T := by
            by_contra hc
            exact hv (hflag _ (by omega))
          rw [ih _ _ h, ← h2, lateCount_of_length_le, lateCount_of_length_le]
          · omega
          · simp only [List.length_append, List.length_singleton]; omega
      · cases h
        exact h2

/-! ## Rendering, cleanup and exit -/

theorem render_events (env : Env) (p : Plan) (fuel : Nat) (tr tr1 : List Event)
    (h : render env p fuel tr = some tr1) :
    ∃ ev, tr1 = tr ++ ev ∧ ∀ e ∈ ev, loopEvent p e = true := by
  unfold render at h
  split at h
  · exact doWhile_events env p fuel tr tr1 h
  · cases h
    refine ⟨[Event.fill p.bg, Event.drawText 0 p.y_pos p.fg (some p.bg) p.text,
      Event.send (env.sendOk (tr.length + 2))], by simp, ?_⟩
    intro e he
    simp only [List.mem_cons, List.mem_singleton, List.not_mem_nil, or_false] at he
    rcases he with rfl | rfl | rfl <;> simp [loopEvent]

/-- The static path in closed form. -/
theorem render_static (env : Env) (p : Plan) (fuel : Nat) (tr : List Event)
    (hs : p.scroll_delay_ms ≤ 0) :
    render env p fuel tr =
      some (tr ++ [Event.fill p.bg, Event.drawText 0 p.y_pos p.fg (some p.bg) p.text,
        Event.send (env.sendOk (tr.length + 2))]) := by
  unfold render
  rw [if_neg (by omega)]
  simp

theorem execute_eq (env : Env) (p : Plan) (fuel : Nat) (tr : List Event) :
    execute env p fuel tr =
      match render env p fuel (tr ++ [Event.signal 15, Event.signal 2]) with
      | none => none
      | some tr2 => some (finish env p (cleanup env p tr2)) := rfl

theorem cleanup_eq (env : Env) (p : Plan) (tr : List Event) :
    cleanup env p tr = tr ++
      (if 0 < p.off_z then
        (if env.interrupt_received tr.length = true then
          [Event.readInterrupt true, Event.clear, Event.send (env.sendOk (tr.length + 2))]
        else [Event.readInterrupt false])
      else []) := by
  unfold cleanup
  by_cases hz : 0 < p.off_z
  · cases hv : env.interrupt_received tr.length <;> simp [hz]
  · simp [hz]

theorem finish_eq (env : Env) (p : Plan) (tr : List Event) :
    finish env p tr = ⟨0, tr ++
      (if env.interrupt_received (tr.length + 1) = true then
        [Event.close p.fd, Event.readInterrupt true, Event.stderr Msg.interrupted]
      else [Event.close p.fd, Event.readInterrupt false])⟩ := by
  unfold finish
  cases hv : env.interrupt_received (tr.length + 1) <;> simp [hv]

/-- What follows the render loop: the flag reads, the clear frame exactly
when `off_z > 0` and the flag is up at that moment, one `close`, exit code 0. -/
theorem finish_cleanup (env : Env) (p : Plan) (tr : List Event) :
    ∃ rest, finish env p (cleanup env p tr) = ⟨0, tr ++ rest⟩ ∧
      displayOps rest =
        (if 0 < p.off_z ∧ env.interrupt_received tr.length = true then
          [Event.clear, Event.send (env.sendOk (tr.length + 2))] else []) ∧
      (rest.filter Event.isClose).length = 1 ∧
      (rest.filter Event.isSend).length ≤ 1 ∧
      (rest.filter Event.isPaint).length = 0 := by
  rw [finish_eq, cleanup_eq]
  refine ⟨_, by rw [List.append_assoc], ?_⟩
  by_cases hz : 0 < p.off_z
  · cases hv : env.interrupt_received tr.length
    · simp only [hz, if_true, Bool.false_eq_true, if_false, and_false]
      split <;>
        simp [displayOps, Event.isDisplayOp, Event.isSend, Event.isFill, Event.isDrawText,
          Event.isClear, Event.isClose, Event.isPaint]
    · simp only [hz, if_true, and_self]
      split <;>
        simp [displayOps, Event.isDisplayOp, Event.isSend, Event.isFill, Event.isDrawText,
          Event.isClear, Event.isClose, Event.isPaint]
  · simp only [hz, if_false, false_and]
    split <;>
      simp [displayOps, Event.isDisplayOp, Event.isSend, Event.isFill, Event.isDrawText,
        Event.isClear, Event.isClose, Event.isPaint]

/-- When the render loop ends, the run ends with exit code 0. -/
theorem execute_of_render (env : Env) (p : Plan) (fuel : Nat) (tr trL : List Event)
    (h : render env p fuel (tr ++ [Event.signal 15, Event.signal 2]) = some trL) :
    ∃ rest, execute env p fuel tr = some ⟨0, trL ++ rest⟩ ∧
      displayOps rest =
        (if 0 < p.off_z ∧ env.interrupt_received trL.length = true then
          [Event.clear, Event.send (env.sendOk (trL.length + 2))] else []) ∧
      (rest.filter Event.isClose).length = 1 ∧
      (rest.filter Event.isSend).length ≤ 1 ∧
      (rest.filter Event.isPaint).length = 0 := by
  obtain ⟨rest, h1, h2⟩ := finish_cleanup env p trL
  refine ⟨rest, ?_, h2⟩
  rw [execute_eq, h]
  simp only [h1]

/-- A run that returns went through a render loop that ended. -/
theorem render_of_execute (env : Env) (p : Plan) (fuel : Nat) (tr : List Event)
    (out : Outcome) (h : execute env p fuel tr = some out) :
    ∃ trL, render env p fuel (tr ++ [Event.signal 15, Event.signal 2]) = some trL := by
  rw [execute_eq] at h
  cases hr : render env p fuel (tr ++ [Event.signal 15, Event.signal 2]) with
  | none => rw [hr] at h; cases h
  | some trL => exact ⟨trL, rfl⟩

/-! ## Startup -/

theorem quiet_msgs (ms : List Msg) : ∀ e ∈ ms.map Event.stderr, e.isDisplayOp = false := by
  intro e he
  obtain ⟨m, _, rfl⟩ := List.mem_map.1 he
  rfl

/-- After the option loop the trace holds messages only. -/
theorem getoptLoop_quiet (env : Env) (opts : List Opt) (v : Vars)
    (h : getoptLoop env (initVars env) opts = Except.ok v) :
    ∀ e ∈ v.trace, e.isDisplayOp = false := by
  obtain ⟨ms, hms⟩ := getoptLoop_ok_trace env opts _ v h
  rw [hms]
  simpa [initVars] using quiet_msgs ms

/-- The four ways `configure` returns early, and what it leaves otherwise. -/
theorem configure_spec (env : Env) (v : Vars) :
    (configFails env v →
      ∃ ev, configure env v = Except.error ⟨1, v.trace ++ ev⟩ ∧
        ∀ e ∈ ev, e.isDisplayOp = false) ∧
    (¬ configFails env v → configure env v = Except.ok (displayOf env v)) := by
  unfold configure configFails displayOf
  by_cases h1 : v.font.height < 0
  · refine ⟨fun _ => ⟨[Event.stderr Msg.needFont, Event.stderr Msg.usageText], ?_, ?_⟩,
      fun hn => absurd (Or.inl h1) hn⟩
    · simp [h1, usage]
    · intro e he
      simp only [List.mem_cons, List.mem_singleton, List.not_mem_nil, or_false] at he
      rcases he with rfl | rfl <;> rfl
  · by_cases h2 : v.width < 1 ∨ heightDefault v < 1
    · refine ⟨fun _ => ⟨[Event.stderr Msg.unusualSize, Event.stderr Msg.usageText], ?_, ?_⟩,
        fun hn => absurd (by tauto) hn⟩
      · simp [h1, h2, usage]
      · intro e he
        simp only [List.mem_cons, List.mem_singleton, List.not_mem_nil, or_false] at he
        rcases he with rfl | rfl <;> rfl
    · by_cases h3 : env.openSocket v.host < 0
      · refine ⟨fun _ => ⟨[Event.openSocket v.host (env.openSocket v.host),
          Event.stderr Msg.cannotConnect], ?_, ?_⟩, fun hn => absurd (by tauto) hn⟩
        · simp [h1, h2, h3]
        · intro e he
          simp only [List.mem_cons, List.mem_singleton, List.not_mem_nil, or_false] at he
          rcases he with rfl | rfl <;> rfl
      · refine ⟨fun hc => absurd hc (by tauto), fun _ => ?_⟩
        simp [h1, h2, h3]

theorem prepare_spec (env : Env) (d : Display) (args : List (List Char)) :
    (eatLeadingSpaces (assemble args) = [] →
      prepare env d args = Except.error ⟨1, d.trace ++ [Event.stderr Msg.emptyText]⟩) ∧
    (eatLeadingSpaces (assemble args) ≠ [] →
      prepare env d args =
        Except.ok (planOf env d (eatLeadingSpaces (assemble args)),
          d.trace ++ [dryRun (planOf env d (eatLeadingSpaces (assemble args)))])) := by
  unfold prepare
  constructor
  · intro h
    simp [h]
  · intro h
    simp [h, planOf, dryRun]

theorem displayOf_quiet (env : Env) (v : Vars) (hq : ∀ e ∈ v.trace, e.isDisplayOp = false) :
    ∀ e ∈ (displayOf env v).trace, e.isDisplayOp = false := by
  intro e he
  simp only [displayOf, List.mem_append, List.mem_cons, List.mem_singleton, List.not_mem_nil,
    or_false] at he
  rcases he with h | rfl | rfl | rfl
  · exact hq e h
  · rfl
  · rfl
  · rfl

theorem startup_eq (env : Env) (opts : List Opt) (args : List (List Char)) (v : Vars)
    (hv : getoptLoop env (initVars env) opts = Except.ok v) :
    startup env opts args =
      match configure env v with
      | Except.error out => Except.error out
      | Except.ok d => prepare env d args := by
  unfold startup
  rw [hv]

/-- After a successful option loop, startup returns early with exit code 1
and without any display operation when a configuration check fails or the
text is empty. -/
theorem startup_fail (env : Env) (opts : List Opt) (args : List (List Char)) (v : Vars)
    (hv : getoptLoop env (initVars env) opts = Except.ok v)
    (hc : configFails env v ∨ eatLeadingSpaces (assemble args) = []) :
    ∃ tr, startup env opts args = Except.error ⟨1, tr⟩ ∧
      (∀ e ∈ tr, e.isDisplayOp = false) ∧
      (¬ configFails env v → Event.stderr Msg.emptyText ∈ tr) := by
  have hq := getoptLoop_quiet env opts v hv
  rw [startup_eq env opts args v hv]
  by_cases hf : configFails env v
  · obtain ⟨ev, he, hev⟩ := (configure_spec env v).1 hf
    rw [he]
    refine ⟨_, rfl, ?_, fun hn => absurd hf hn⟩
    intro e hin
    rcases List.mem_append.1 hin with h | h
    · exact hq e h
    · exact hev e h
  · have ht : eatLeadingSpaces (assemble args) = [] := by tauto
    rw [(configure_spec env v).2 hf]
    simp only
    rw [(prepare_spec env (displayOf env v) args).1 ht]
    refine ⟨_, rfl, ?_, fun _ => by simp⟩
    intro e hin
    rcases List.mem_append.1 hin with h | h
    · exact displayOf_quiet env v hq e h
    · simp only [List.mem_singleton] at h
      subst h
      rfl

/-- After a successful option loop, with no configuration failure and a
non-empty text, startup reaches the render loop right after the dry run. -/
theorem startup_pass (env : Env) (opts : List Opt) (args : List (List Char)) (v : Vars)
    (hv : getoptLoop env (initVars env) opts = Except.ok v)
    (hf : ¬ configFails env v) (ht : eatLeadingSpaces (assemble args) ≠ []) :
    startup env opts args =
      Except.ok (planOf env (displayOf env v) (eatLeadingSpaces (assemble args)),
        (displayOf env v).trace ++
          [dryRun (planOf env (displayOf env v) (eatLeadingSpaces (assemble args)))]) := by
  rw [startup_eq env opts args v hv, (configure_spec env v).2 hf]
  simp only
  rw [(prepare_spec env (displayOf env v) args).2 ht]

/-- Every early return of startup has exit code 1 and no display operation. -/
theorem startup_error (env : Env) (opts : List Opt) (args : List (List Char)) (out : Outcome)
    (h : startup env opts args = Except.error out) :
    out.exit = 1 ∧ ∀ e ∈ out.trace, e.isDisplayOp = false := by
  cases hv : getoptLoop env (initVars env) opts with
  | error out1 =>
    unfold startup at h
    rw [hv] at h
    simp only at h
    cases h
    obtain ⟨he, _, ms, hms⟩ := getoptLoop_error env opts _ out hv
    refine ⟨he, ?_⟩
    rw [hms]
    simpa [initVars] using quiet_msgs ms
  | ok v =>
    by_cases hc : configFails env v ∨ eatLeadingSpaces (assemble args) = []
    · obtain ⟨tr, htr, hq, _⟩ := startup_fail env opts args v hv hc
      rw [htr] at h
      cases h
      exact ⟨rfl, hq⟩
    · rw [startup_pass env opts args v hv (by tauto) (by tauto)] at h
      cases h

/-- A startup that reaches the render loop: the options were accepted, no
check failed, the text is not empty, and the trace ends with the dry run. -/
theorem startup_ok (env : Env) (opts : List Opt) (args : List (List Char)) (p : Plan)
    (tr0 : List Event) (h : startup env opts args = Except.ok (p, tr0)) :
    ∃ v, getoptLoop env (initVars env) opts = Except.ok v ∧ ¬ configFails env v ∧
      eatLeadingSpaces (assemble args) ≠ [] ∧
      p = planOf env (displayOf env v) (eatLeadingSpaces (assemble args)) ∧
      tr0 = (displayOf env v).trace ++ [dryRun p] ∧
      ∀ e ∈ (displayOf env v).trace, e.isDisplayOp = false := by
  cases hv : getoptLoop env (initVars env) opts with
  | error out1 =>
    unfold startup at h
    rw [hv] at h
    cases h
  | ok v =>
    by_cases hc : configFails env v ∨ eatLeadingSpaces (assemble args) = []
    · obtain ⟨tr, htr, _⟩ := startup_fail env opts args v hv hc
      rw [htr] at h
      cases h
    · have hf : ¬ configFails env v := by tauto
      have ht : eatLeadingSpaces (assemble args) ≠ [] := by tauto
      rw [startup_pass env opts args v hv hf ht] at h
      cases h
      exact ⟨v, rfl, hf, ht, rfl, rfl, displayOf_quiet env v (getoptLoop_quiet env opts v hv)⟩

theorem main_of_startup_error (env : Env) (fuel : Nat) (opts : List Opt)
    (args : List (List Char)) (out : Outcome) (h : startup env opts args = Except.error out) :
    main env fuel opts args = some out := by
  unfold main
  rw [h]

theorem main_of_startup_ok (env : Env) (fuel : Nat) (opts : List Opt)
    (args : List (List Char)) (p : Plan) (tr0 : List Event)
    (h : startup env opts args = Except.ok (p, tr0)) :
    main env fuel opts args = execute env p fuel tr0 := by
  unfold main
  rw [h]

/-! ## Claims about the render loop -/

theorem displayOps_append (a b : List Event) :
    displayOps (a ++ b) = displayOps a ++ displayOps b := by
  unfold displayOps
  rw [List.filter_append]

/-- C3 (amended). Static mode: for every plan that passed startup with
scroll delay 0, whatever the text and its measured width, the trace up to
the dry run holds no display operation but the dry run itself, and the
display operations after it are exactly one `Fill(bg)`, one `DrawText` at
offset 0 with foreground and background, and one `Send`, in that order,
followed by nothing else unless `off_z > 0` and the interrupt flag is up at
the shutdown check, in which case one `Clear` and one `Send` follow.  The
run always ends, with exit code 0. -/
theorem static_mode (env : Env) (fuel : Nat) (opts : List Opt) (args : List (List Char))
    (p : Plan) (tr0 : List Event) (hst : startup env opts args = Except.ok (p, tr0))
    (hd : p.scroll_delay_ms = 0) :
    ∃ front out, tr0 = front ++ [dryRun p] ∧ (∀ e ∈ front, e.isDisplayOp = false) ∧
      main env fuel opts args = some out ∧ out.exit = 0 ∧
      out.trace.take tr0.length = tr0 ∧
      displayOps (out.trace.drop tr0.length) =
        [Event.fill p.bg, Event.drawText 0 p.y_pos p.fg (some p.bg) p.text,
          Event.send (env.sendOk (tr0.length + 4))] ++
        (if 0 < p.off_z ∧ env.interrupt_received (tr0.length + 5) = true then
          [Event.clear, Event.send (env.sendOk (tr0.length + 7))] else []) := by
  obtain ⟨v, _, _, _, _, htr0, hq⟩ := startup_ok env opts args p tr0 hst
  have hr := render_static env p fuel (tr0 ++ [Event.signal 15, Event.signal 2]) (by omega)
  obtain ⟨rest, hex, hops, _⟩ := execute_of_render env p fuel tr0 _ hr
  have e1 : (tr0 ++ [Event.signal 15, Event.signal 2]).length + 2 = tr0.length + 4 := by
    simp only [List.length_append, List.length_cons, List.length_nil]
  have e2 : (tr0 ++ [Event.signal 15, Event.signal 2] ++
      [Event.fill p.bg, Event.drawText 0 p.y_pos p.fg (some p.bg) p.text,
        Event.send (env.sendOk (tr0.length + 4))]).length = tr0.length + 5 := by
    simp only [List.length_append, List.length_cons, List.length_nil]
  rw [e1] at hex hops
  rw [e2] at hops
  refine ⟨(displayOf env v).trace,
    ⟨0, tr0 ++ ([Event.signal 15, Event.signal 2, Event.fill p.bg,
      Event.drawText 0 p.y_pos p.fg (some p.bg) p.text,
      Event.send (env.sendOk (tr0.length + 4))] ++ rest)⟩, htr0, hq, ?_, rfl, ?_, ?_⟩
  · rw [main_of_startup_ok env fuel opts args p tr0 hst, hex]
    simp
  · exact List.take_left _ _
  · show displayOps (List.drop tr0.length (tr0 ++ _)) = _
    rw [List.drop_left, displayOps_append, hops]
    rfl

/-- C3 (amended), on the text "HI" of width 20 with `-s 0` on the default
display of width 45, no interrupt: exactly one frame, drawn at offset 0. -/
theorem static_mode_witness :
    ∃ out, main quietEnv 0 [Opt.f [], Opt.s 0] [['H', 'I']] = some out ∧
      displayOps (out.trace.drop 4) =
        [Event.fill ⟨0, 0, 0⟩,
         Event.drawText 0 8 ⟨255, 255, 255⟩ (some ⟨0, 0, 0⟩) ['H', 'I', ' '],
         Event.send true] := by
  obtain ⟨front, out, _, _, hm, _, _, hops⟩ :=
    static_mode quietEnv 0 [Opt.f [], Opt.s 0] [['H', 'I']]
      (planOf quietEnv (displayOf quietEnv
        { initVars quietEnv with font := sampleFont, scroll_delay_ms := 0 }) ['H', 'I', ' '])
      _ rfl rfl
  exact ⟨out, hm, hops⟩

/-- C3 as stated fails: with `-s 0` on the default layer 1, an interrupt
that arrives while the single frame is drawn (logical time 7) makes the run
issue `Clear` and a second `Send` after the one frame. -/
theorem static_mode_counterexample :
    (main (sampleEnv (fun t => decide (7 ≤ t)) (fun _ => true)) 0
        [Opt.f [], Opt.s 0] [['H', 'I']]).map
      (fun out => displayOps (out.trace.drop 4)) =
      some [Event.fill ⟨0, 0, 0⟩,
        Event.drawText 0 8 ⟨255, 255, 255⟩ (some ⟨0, 0, 0⟩) ['H', 'I', ' '],
        Event.send true, Event.clear, Event.send true] := by
  decide

theorem loopEvent_kind (p : Plan) (e : Event) (h : loopEvent p e = true) :
    e.isClear = false ∧ e.isClose = false := by
  cases e <;> simp [loopEvent] at h <;> exact ⟨rfl, rfl⟩

/-- C4 (amended). Shutdown cleanup.  Whenever the render loop ends, the run
ends with exit code 0, and what it issues after the loop is exactly one
`Clear` followed by one `Send` if and only if `off_z > 0` and the interrupt
flag is up when the loop has ended, whether or not the flag is what ended
the loop; otherwise it issues no display operation after the loop.  In
particular with `off_z ≤ 0`, or when no interrupt ever arrives, no `Clear`
is issued anywhere in the run and no `Send` after the loop, so the last text
frame stays on the display. -/
theorem shutdown_cleanup (env : Env) (p : Plan) (fuel : Nat) (tr trL : List Event)
    (h : render env p fuel (tr ++ [Event.signal 15, Event.signal 2]) = some trL) :
    ∃ rest, execute env p fuel tr = some ⟨0, trL ++ rest⟩ ∧
      (displayOps rest = [Event.clear, Event.send (env.sendOk (trL.length + 2))] ↔
        (0 < p.off_z ∧ env.interrupt_received trL.length = true)) ∧
      (¬ (0 < p.off_z ∧ env.interrupt_received trL.length = true) → displayOps rest = []) ∧
      ((p.off_z ≤ 0 ∨ ∀ t, env.interrupt_received t = false) →
        displayOps rest = [] ∧ ∀ e ∈ (trL ++ rest).drop tr.length, e.isClear = false) := by
  obtain ⟨rest, hex, hops, _⟩ := execute_of_render env p fuel tr trL h
  have hno : ¬ (0 < p.off_z ∧ env.interrupt_received trL.length = true) → displayOps rest = [] := by
    intro hn
    rw [hops, if_neg hn]
  refine ⟨rest, hex, ?_, hno, ?_⟩
  · constructor
    · intro heq
      by_contra hn
      rw [hno hn] at heq
      cases heq
    · intro hc
      rw [hops, if_pos hc]
  · intro hc
    have hn : ¬ (0 < p.off_z ∧ env.interrupt_received trL.length = true) := by
      rcases hc with hz | hq
      · intro hh; omega
      · intro hh
        rw [hq] at hh
        cases hh.2
    refine ⟨hno hn, ?_⟩
    obtain ⟨ev, hev, hall⟩ := render_events env p fuel _ trL h
    rw [hev]
    simp only [List.append_assoc]
    rw [List.drop_left]
    intro e he
    simp only [List.mem_append, List.mem_cons, List.mem_singleton, List.not_mem_nil,
      or_false] at he
    rcases he with (rfl | rfl) | h1 | h1
    · rfl
    · rfl
    · exact (loopEvent_kind p e (hall e h1)).1
    · by_contra hcl
      have hmem : e ∈ displayOps rest := by
        unfold displayOps
        rw [List.mem_filter]
        refine ⟨h1, ?_⟩
        cases e <;> simp [Event.isClear] at hcl
        rfl
      rw [hno hn] at hmem
      cases hmem

/-- C4 (amended), on a forever-scrolling run on layer 1 that is interrupted during its
first frame (logical time 5): the loop stops after that frame and the run
ends with one `Clear` and one `Send`. -/
theorem shutdown_cleanup_witness :
    ∃ rest, execute (sampleEnv (fun t => decide (5 ≤ t)) (fun _ => true))
        (samplePlan 50 true 1) 1 [] =
        some ⟨0, [Event.signal 15, Event.signal 2, Event.fill ⟨0, 0, 0⟩,
          Event.readInterrupt false,
          Event.drawText 45 8 ⟨255, 255, 255⟩ (some ⟨0, 0, 0⟩) ['H', 'I', ' '],
          Event.send true, Event.usleep 50000, Event.readInterrupt true,
          Event.readInterrupt true] ++ rest⟩ ∧
      displayOps rest = [Event.clear, Event.send true] := by
  obtain ⟨rest, h1, h2, _⟩ :=
    shutdown_cleanup (sampleEnv (fun t => decide (5 ≤ t)) (fun _ => true))
      (samplePlan 50 true 1) 1 []
      [Event.signal 15, Event.signal 2, Event.fill ⟨0, 0, 0⟩,
        Event.readInterrupt false,
        Event.drawText 45 8 ⟨255, 255, 255⟩ (some ⟨0, 0, 0⟩) ['H', 'I', ' '],
        Event.send true, Event.usleep 50000, Event.readInterrupt true,
        Event.readInterrupt true] (by decide)
  exact ⟨rest, h1, h2.2 ⟨by decide, by decide⟩⟩

/-- C4 as stated fails: a run-once sweep on layer 1 that sends all its
`W + Dw = 3` frames and leaves the loop because the sweep is exhausted, the
flag having been set only while the last frame was sent (logical time 13),
still issues `Clear` and `Send` after the loop. -/
theorem shutdown_cleanup_counterexample :
    render (sampleEnv (fun t => decide (13 ≤ t)) (fun _ => true)) (tinyPlan 1) 1
        [Event.signal 15, Event.signal 2] =
      some [Event.signal 15, Event.signal 2, Event.fill ⟨0, 0, 0⟩,
        Event.readInterrupt false,
        Event.drawText 2 8 ⟨255, 255, 255⟩ (some ⟨0, 0, 0⟩) ['I', ' '],
        Event.send true, Event.usleep 50000,
        Event.readInterrupt false,
        Event.drawText 1 8 ⟨255, 255, 255⟩ (some ⟨0, 0, 0⟩) ['I', ' '],
        Event.send true, Event.usleep 50000,
        Event.readInterrupt false,
        Event.drawText 0 8 ⟨255, 255, 255⟩ (some ⟨0, 0, 0⟩) ['I', ' '],
        Event.send true, Event.usleep 50000] ∧
    execute (sampleEnv (fun t => decide (13 ≤ t)) (fun _ => true)) (tinyPlan 1) 1 [] =
      some ⟨0, [Event.signal 15, Event.signal 2, Event.fill ⟨0, 0, 0⟩,
        Event.readInterrupt false,
        Event.drawText 2 8 ⟨255, 255, 255⟩ (some ⟨0, 0, 0⟩) ['I', ' '],
        Event.send true, Event.usleep 50000,
        Event.readInterrupt false,
        Event.drawText 1 8 ⟨255, 255, 255⟩ (some ⟨0, 0, 0⟩) ['I', ' '],
        Event.send true, Event.usleep 50000,
        Event.readInterrupt false,
        Event.drawText 0 8 ⟨255, 255, 255⟩ (some ⟨0, 0, 0⟩) ['I', ' '],
        Event.send true, Event.usleep 50000,
        Event.readInterrupt true, Event.clear, Event.send true,
        Event.close 3, Event.readInterrupt true, Event.stderr Msg.interrupted]⟩ := by
  decide

/-- C5. Cancellation mid-sweep.  The interrupt flag is sampled at the top of
every per-offset iteration and at every sweep-repeat decision.  Let the flag
be up from logical time `T` on, `T` a point of the scrolling run.  Then the
scroll loop ends (fuel for `T` sweeps is enough) and the run ends with exit
code 0; from time `T` on the loop issues at most one `DrawText` and at most
one `Send` (the text frame in flight), no sample finds the flag clear (no
repeat decision starts a sweep, no iteration goes ahead), and at most one
painting operation happens altogether, so no frame of a further sweep is
ever drawn; after the loop nothing is painted and at most one `Send`
follows (the clear frame). -/
theorem cancellation (env : Env) (p : Plan) (tr : List Event) (T fuel : Nat)
    (hs : 0 < p.scroll_delay_ms) (hT : tr.length + 2 ≤ T)
    (hflag : ∀ t, T ≤ t → env.interrupt_received t = true)
    (hfuel : T - (tr.length + 2) < fuel) :
    ∃ trL rest, render env p fuel (tr ++ [Event.signal 15, Event.signal 2]) = some trL ∧
      execute env p fuel tr = some ⟨0, trL ++ rest⟩ ∧
      lateCount Event.isDrawText T trL ≤ 1 ∧
      lateCount Event.isSend T trL ≤ 1 ∧
      lateCount Event.isClearRead T trL = 0 ∧
      lateCount Event.isPaint T trL ≤ 1 ∧
      (rest.filter Event.isPaint).length = 0 ∧
      (rest.filter Event.isSend).length ≤ 1 ∧
      lateCount Event.isPaint T (trL ++ rest) ≤ 1 ∧
      lateCount Event.isSend T (trL ++ rest) ≤ 2 := by
  have hlen : (tr ++ [Event.signal 15, Event.signal 2]).length = tr.length + 2 := by
    simp only [List.length_append, List.length_cons, List.length_nil]
  obtain ⟨trL, hL⟩ := doWhile_terminates env p T hflag fuel
    (tr ++ [Event.signal 15, Event.signal 2]) (by rw [hlen]; exact hfuel)
  have hr : render env p fuel (tr ++ [Event.signal 15, Event.signal 2]) = some trL := by
    unfold render
    rw [if_pos hs]
    exact hL
  obtain ⟨rest, hex, _, _, hsend, hpaint⟩ := execute_of_render env p fuel tr trL hr
  have hd := doWhile_late env p Event.isDrawText T hflag (fun _ => rfl) (fun _ => rfl)
    (fun _ _ _ _ _ _ => rfl) fuel _ trL (by rw [hlen]; exact hT) hL
  have hsd := doWhile_late env p Event.isSend T hflag (fun _ => rfl) (fun _ => rfl)
    (fun _ _ _ _ _ _ => rfl) fuel _ trL (by rw [hlen]; exact hT) hL
  have hp := doWhile_late env p Event.isPaint T hflag (fun _ => rfl) (fun _ => rfl)
    (fun _ _ _ _ _ _ => rfl) fuel _ trL (by rw [hlen]; exact hT) hL
  have hcr : lateCount Event.isClearRead T trL = 0 := by
    rw [doWhile_reads env p T hflag fuel _ trL hL]
    exact lateCount_of_length_le _ T _ (by rw [hlen]; exact hT)
  refine ⟨trL, rest, hr, hex, hd, hsd, hcr, hp, hpaint, hsend, ?_, ?_⟩
  · have := lateCount_append_le Event.isPaint T trL rest
    omega
  · have := lateCount_append_le Event.isSend T trL rest
    omega

/-- C5, at `W = 20`, `Dw = 45`, `off_z = 1`, scrolling forever, with the flag
set while frame 10 is being sent (logical time 41): ten text frames are
drawn, and the only frame after frame 10 is the clear frame, the eleventh
`Send` of the run. -/
theorem cancellation_witness :
    (∃ trL rest,
      render (sampleEnv (fun t => decide (41 ≤ t)) (fun _ => true)) (samplePlan 50 true 1) 40
        [Event.signal 15, Event.signal 2] = some trL ∧
      execute (sampleEnv (fun t => decide (41 ≤ t)) (fun _ => true)) (samplePlan 50 true 1) 40
        [] = some ⟨0, trL ++ rest⟩ ∧
      lateCount Event.isDrawText 41 trL ≤ 1 ∧ lateCount Event.isSend 41 (trL ++ rest) ≤ 2) ∧
    (execute (sampleEnv (fun t => decide (41 ≤ t)) (fun _ => true)) (samplePlan 50 true 1) 40
        []).map (fun out => ((out.trace.filter Event.isDrawText).length,
          (out.trace.filter Event.isSend).length, displayOps (out.trace.drop 42))) =
      some (10, 11, [Event.clear, Event.send true]) := by
  constructor
  · obtain ⟨trL, rest, h1, h2, h3, _, _, _, _, _, _, h4⟩ :=
      cancellation (sampleEnv (fun t => decide (41 ≤ t)) (fun _ => true))
        (samplePlan 50 true 1) [] 41 40 (by decide) (by decide)
        (fun t ht => by simpa [sampleEnv] using ht) (by decide)
    exact ⟨trL, rest, h1, h2, h3, h4⟩
  · decide

/-! ## The status of a `Send` -/

theorem eraseStatus_append (a b : List Event) :
    (a ++ b).map Event.eraseStatus = a.map Event.eraseStatus ++ b.map Event.eraseStatus :=
  List.map_append _ _ _

/-- The `for` loop does not look at what a `Send` reports. -/
theorem forLoop_erase (env : Env) (p : Plan) (n : Nat) :
    ∀ (s : Int) (tr : List Event),
      forLoop env.reliable p n s (tr.map Event.eraseStatus) =
        (forLoop env p n s tr).map (List.map Event.eraseStatus) := by
  induction n with
  | zero =>
    intro s tr
    rw [forLoop_zero, forLoop_zero]
    simp only [List.length_map]
    show (if s < p.total_len + p.width then
        if env.interrupt_received tr.length = true then _ else none else _) = _
    split
    · split
      · simp [Event.eraseStatus]
      · rfl
    · rfl
  | succ n ih =>
    intro s tr
    rw [forLoop_succ, forLoop_succ]
    simp only [List.length_map]
    show (if s < p.total_len + p.width then
        if env.interrupt_received tr.length = true then _ else _ else _) = _
    split
    · split
      · simp [Event.eraseStatus]
      · rw [← ih]
        congr 1
        simp [Event.eraseStatus, Env.reliable]
    · rfl

theorem sweep_erase (env : Env) (p : Plan) (tr : List Event) :
    sweep env.reliable p (tr.map Event.eraseStatus) =
      (sweep env p tr).map (List.map Event.eraseStatus) := by
  unfold sweep
  rw [← forLoop_erase]
  simp [Event.eraseStatus]

theorem doWhile_erase (env : Env) (p : Plan) (fuel : Nat) :
    ∀ tr : List Event,
      doWhile env.reliable p fuel (tr.map Event.eraseStatus) =
        (doWhile env p fuel tr).map (List.map Event.eraseStatus) := by
  induction fuel with
  | zero => intro tr; rfl
  | succ fuel ih =>
    intro tr
    rw [doWhile_succ, doWhile_succ, sweep_erase]
    cases sweep env p tr with
    | none => rfl
    | some tr1 =>
      simp only [Option.map_some', List.length_map]
      show (if p.run_forever = true then
        if env.interrupt_received tr1.length = true then _ else _ else _) = _
      split
      · split
        · simp [Event.eraseStatus]
        · rw [← ih]
          simp [Event.eraseStatus]
      · rfl

theorem render_erase (env : Env) (p : Plan) (fuel : Nat) (tr : List Event) :
    render env.reliable p fuel (tr.map Event.eraseStatus) =
      (render env p fuel tr).map (List.map Event.eraseStatus) := by
  unfold render
  split
  · exact doWhile_erase env p fuel tr
  · simp [Event.eraseStatus, Env.reliable]

theorem finish_cleanup_erase (env : Env) (p : Plan) (tr : List Event) :
    finish env.reliable p (cleanup env.reliable p (tr.map Event.eraseStatus)) =
      (finish env p (cleanup env p tr)).eraseStatus := by
  rw [finish_eq, cleanup_eq, finish_eq, cleanup_eq]
  simp only [List.length_map, List.length_append, Outcome.eraseStatus]
  show (⟨0, _⟩ : Outcome) = ⟨0, _⟩
  congr 1
  by_cases hz : 0 < p.off_z
  · cases hv : env.interrupt_received tr.length
    · have hv1 : env.reliable.interrupt_received tr.length = false := hv
      simp only [hz, if_true, hv, hv1, Bool.false_eq_true, if_false, List.length_singleton]
      have hi : env.reliable.interrupt_received (tr.length + 1 + 1) = env.interrupt_received (tr.length + 1 + 1) :=
        rfl
      rw [hi]
      split <;> simp [Event.eraseStatus]
    · have hv1 : env.reliable.interrupt_received tr.length = true := hv
      simp only [hz, if_true, hv, hv1, List.length_cons, List.length_nil]
      have hi : env.reliable.interrupt_received (tr.length + (0 + 1 + 1 + 1) + 1) =
          env.interrupt_received (tr.length + (0 + 1 + 1 + 1) + 1) := rfl
      rw [hi]
      split <;> simp [Event.eraseStatus, Env.reliable]
  · simp only [hz, if_false, List.length_nil]
    have hi : env.reliable.interrupt_received (tr.length + 0 + 1) = env.interrupt_received (tr.length + 0 + 1) :=
      rfl
    rw [hi]
    split <;> simp [Event.eraseStatus]

/-- C6 (amended). Modelling `Send` as an operation that may report failure:
the report is never looked at.  A run against a transport that reports
failures is, up to the recorded reports, the run against a transport that
reports none: after a failing `Send` the loop goes on drawing and sending as
if it had succeeded.  Whenever the render loop ends, the transport handle is
released exactly once by the `close` after the loop, and the exit code
is 0. -/
theorem send_status_ignored (env : Env) (p : Plan) (fuel : Nat) (tr : List Event) :
    execute env.reliable p fuel (tr.map Event.eraseStatus) =
      (execute env p fuel tr).map Outcome.eraseStatus ∧
    (∀ trL, render env p fuel (tr ++ [Event.signal 15, Event.signal 2]) = some trL →
      ∃ rest, execute env p fuel tr = some ⟨0, trL ++ rest⟩ ∧
        (((trL ++ rest).drop tr.length).filter Event.isClose).length = 1) := by
  constructor
  · rw [execute_eq, execute_eq]
    have h := render_erase env p fuel (tr ++ [Event.signal 15, Event.signal 2])
    rw [eraseStatus_append] at h
    rw [show [Event.signal 15, Event.signal 2].map Event.eraseStatus =
      [Event.signal 15, Event.signal 2] from rfl] at h
    rw [h]
    cases render env p fuel (tr ++ [Event.signal 15, Event.signal 2]) with
    | none => rfl
    | some trL =>
      simp only [Option.map_some']
      rw [finish_cleanup_erase]
  · intro trL h
    obtain ⟨rest, hex, _, hclose, _⟩ := execute_of_render env p fuel tr trL h
    refine ⟨rest, hex, ?_⟩
    obtain ⟨ev, hev, hall⟩ := render_events env p fuel _ trL h
    rw [hev]
    simp only [List.append_assoc]
    rw [List.drop_left, List.filter_append, List.filter_append, List.length_append,
      List.length_append, hclose]
    have h0 : (ev.filter Event.isClose).length = 0 := by
      rw [List.length_eq_zero, List.filter_eq_nil_iff]
      intro e he
      rw [(loopEvent_kind p e (hall e he)).2]
      simp
    rw [h0]
    rfl

/-- C6 (amended), on a run-once sweep of three frames: the run ends with
exit code 0 and one `close`. -/
theorem send_status_ignored_witness :
    ∃ rest, execute (sampleEnv (fun _ => false) (fun _ => false)) (tinyPlan 0) 1 [] =
        some ⟨0, [Event.signal 15, Event.signal 2, Event.fill ⟨0, 0, 0⟩,
          Event.readInterrupt false,
          Event.drawText 2 8 ⟨255, 255, 255⟩ (some ⟨0, 0, 0⟩) ['I', ' '],
          Event.send false, Event.usleep 50000,
          Event.readInterrupt false,
          Event.drawText 1 8 ⟨255, 255, 255⟩ (some ⟨0, 0, 0⟩) ['I', ' '],
          Event.send false, Event.usleep 50000,
          Event.readInterrupt false,
          Event.drawText 0 8 ⟨255, 255, 255⟩ (some ⟨0, 0, 0⟩) ['I', ' '],
          Event.send false, Event.usleep 50000] ++ rest⟩ ∧
      (rest.filter Event.isClose).length = 1 := by
  obtain ⟨rest, h1, h2⟩ :=
    (send_status_ignored (sampleEnv (fun _ => false) (fun _ => false)) (tinyPlan 0) 1 []).2
      [Event.signal 15, Event.signal 2, Event.fill ⟨0, 0, 0⟩,
        Event.readInterrupt false,
        Event.drawText 2 8 ⟨255, 255, 255⟩ (some ⟨0, 0, 0⟩) ['I', ' '],
        Event.send false, Event.usleep 50000,
        Event.readInterrupt false,
        Event.drawText 1 8 ⟨255, 255, 255⟩ (some ⟨0, 0, 0⟩) ['I', ' '],
        Event.send false, Event.usleep 50000,
        Event.readInterrupt false,
        Event.drawText 0 8 ⟨255, 255, 255⟩ (some ⟨0, 0, 0⟩) ['I', ' '],
        Event.send false, Event.usleep 50000] (by decide)
  refine ⟨rest, h1, ?_⟩
  simp only [List.length_nil, List.drop_zero, List.filter_append, List.length_append] at h2
  have h0 : ([Event.signal 15, Event.signal 2, Event.fill ⟨0, 0, 0⟩,
        Event.readInterrupt false,
        Event.drawText 2 8 ⟨255, 255, 255⟩ (some ⟨0, 0, 0⟩) ['I', ' '],
        Event.send false, Event.usleep 50000,
        Event.readInterrupt false,
        Event.drawText 1 8 ⟨255, 255, 255⟩ (some ⟨0, 0, 0⟩) ['I', ' '],
        Event.send false, Event.usleep 50000,
        Event.readInterrupt false,
        Event.drawText 0 8 ⟨255, 255, 255⟩ (some ⟨0, 0, 0⟩) ['I', ' '],
        Event.send false, Event.usleep 50000].filter Event.isClose).length = 0 := by decide
  omega

/-- C6 as stated fails: with a transport that reports failure for every
`Send`, the run-once sweep of three frames draws and sends the second and
third frame after the first `Send` has failed, and the exit code is 0. -/
theorem send_status_ignored_counterexample :
    execute (sampleEnv (fun _ => false) (fun _ => false)) (tinyPlan 0) 1 [] =
      some ⟨0, [Event.signal 15, Event.signal 2, Event.fill ⟨0, 0, 0⟩,
        Event.readInterrupt false,
        Event.drawText 2 8 ⟨255, 255, 255⟩ (some ⟨0, 0, 0⟩) ['I', ' '],
        Event.send false, Event.usleep 50000,
        Event.readInterrupt false,
        Event.drawText 1 8 ⟨255, 255, 255⟩ (some ⟨0, 0, 0⟩) ['I', ' '],
        Event.send false, Event.usleep 50000,
        Event.readInterrupt false,
        Event.drawText 0 8 ⟨255, 255, 255⟩ (some ⟨0, 0, 0⟩) ['I', ' '],
        Event.send false, Event.usleep 50000,
        Event.close 3, Event.readInterrupt false]⟩ := by
  decide

/-! ## Claims about startup -/

theorem isspace_space : isspace ' ' = true := by decide

theorem assemble_eq_joinSpec (args : List (List Char)) (h : args ≠ []) :
    assemble args = joinSpec args ++ [' '] := by
  induction args with
  | nil => exact absurd rfl h
  | cons tok rest ih =>
    cases rest with
    | nil => simp [assemble, joinSpec]
    | cons tok2 rest2 =>
      have ih1 := ih (by simp)
      simp only [assemble] at ih1 ⊢
      simp only [joinSpec]
      rw [ih1]
      simp

theorem eatLeadingSpaces_eq_nil (str : List Char) :
    eatLeadingSpaces str = [] ↔ ∀ ch ∈ str, isspace ch = true := by
  unfold eatLeadingSpaces
  exact List.dropWhile_eq_nil_iff

/-- The assembled text strips to nothing exactly when the join of the
specification does. -/
theorem empty_text_iff (args : List (List Char)) :
    eatLeadingSpaces (assemble args) = [] ↔ eatLeadingSpaces (joinSpec args) = [] := by
  by_cases h : args = []
  · subst h
    rfl
  · rw [assemble_eq_joinSpec args h, eatLeadingSpaces_eq_nil, eatLeadingSpaces_eq_nil]
    constructor
    · intro hall ch hch
      exact hall ch (List.mem_append_left _ hch)
    · intro hall ch hch
      rcases List.mem_append.1 hch with h1 | h1
      · exact hall ch h1
      · simp only [List.mem_singleton] at h1
        subst h1
        exact isspace_space

theorem mem_texts (tr : List Event) (t : List Char) :
    t ∈ texts tr ↔ ∃ x y fg bg, Event.drawText x y fg bg t ∈ tr := by
  induction tr with
  | nil => simp [texts]
  | cons e rest ih =>
    cases e with
    | drawText x y fg bg text =>
      simp only [texts, List.mem_cons, ih]
      constructor
      · rintro (rfl | ⟨x1, y1, fg1, bg1, h1⟩)
        · exact ⟨x, y, fg, bg, Or.inl rfl⟩
        · exact ⟨x1, y1, fg1, bg1, Or.inr h1⟩
      · rintro ⟨x1, y1, fg1, bg1, h1 | h1⟩
        · left
          cases h1
          rfl
        · exact Or.inr ⟨x1, y1, fg1, bg1, h1⟩
    | _ =>
      simp only [texts, List.mem_cons, ih]
      constructor
      · rintro ⟨x1, y1, fg1, bg1, h1⟩
        exact ⟨x1, y1, fg1, bg1, Or.inr h1⟩
      · rintro ⟨x1, y1, fg1, bg1, h1 | h1⟩
        · cases h1
        · exact ⟨x1, y1, fg1, bg1, h1⟩

/-- A run that returns after a successful startup has exit code 0, and every
`DrawText` of its trace carries the text of the plan. -/
theorem main_after_startup (env : Env) (fuel : Nat) (opts : List Opt)
    (args : List (List Char)) (p : Plan) (tr0 : List Event)
    (hst : startup env opts args = Except.ok (p, tr0)) (out : Outcome)
    (hm : main env fuel opts args = some out) :
    out.exit = 0 ∧ ∀ t ∈ texts out.trace, t = p.text := by
  rw [main_of_startup_ok env fuel opts args p tr0 hst] at hm
  obtain ⟨trL, hr⟩ := render_of_execute env p fuel tr0 out hm
  obtain ⟨rest, hex, _, _, _, hpaint⟩ := execute_of_render env p fuel tr0 trL hr
  rw [hex] at hm
  cases hm
  refine ⟨rfl, ?_⟩
  obtain ⟨ev, hev, hall⟩ := render_events env p fuel _ trL hr
  obtain ⟨v, _, _, _, _, htr0, hq⟩ := startup_ok env opts args p tr0 hst
  intro t ht
  rw [mem_texts] at ht
  obtain ⟨x, y, fg, bg, hin⟩ := ht
  simp only [hev, htr0, List.mem_append, List.mem_cons, List.mem_singleton, List.not_mem_nil,
    or_false] at hin
  rcases hin with (((h1 | h1) | h1 | h1) | h1) | h1
  · have := hq _ h1
    simp [Event.isDisplayOp, Event.isDrawText] at this
  · simp only [dryRun, Event.drawText.injEq] at h1
    exact h1.2.2.2.2
  · cases h1
  · cases h1
  · have := hall _ h1
    simp only [loopEvent, Bool.and_eq_true, decide_eq_true_eq] at this
    exact this.2
  · have h0 : rest.filter Event.isPaint = [] := List.length_eq_zero.1 hpaint
    rw [List.filter_eq_nil_iff] at h0
    have := h0 _ h1
    simp [Event.isPaint, Event.isDrawText] at this

/-- C7 (amended). Text assembly: for every list of positional tokens the
text handed to the draw primitive is the tokens each followed by one space
(so joined by single spaces, with one more space after the last token), with
all leading whitespace then stripped.  When the options are accepted and the
configuration checks pass, startup fails with the no-content condition (exit
code 1, the message printed, nothing drawn or sent) exactly when that
stripped result is empty, which is exactly when the join without the
trailing space strips to empty; otherwise startup reaches the dry run and
every `DrawText` of the run carries that text. -/
theorem text_assembly (env : Env) (fuel : Nat) (opts : List Opt) (args : List (List Char))
    (v : Vars) (hv : getoptLoop env (initVars env) opts = Except.ok v)
    (hf : ¬ configFails env v) :
    (args ≠ [] → assemble args = joinSpec args ++ [' ']) ∧
    (eatLeadingSpaces (assemble args) = [] ↔ eatLeadingSpaces (joinSpec args) = []) ∧
    (eatLeadingSpaces (assemble args) = [] →
      ∃ tr, main env fuel opts args = some ⟨1, tr⟩ ∧ Event.stderr Msg.emptyText ∈ tr ∧
        ∀ e ∈ tr, e.isDisplayOp = false) ∧
    (eatLeadingSpaces (assemble args) ≠ [] →
      ∃ p tr0, startup env opts args = Except.ok (p, tr0 ++ [dryRun p]) ∧
        p.text = eatLeadingSpaces (assemble args) ∧
        ∀ out, main env fuel opts args = some out →
          out.exit = 0 ∧ ∀ t ∈ texts out.trace, t = eatLeadingSpaces (assemble args)) := by
  refine ⟨assemble_eq_joinSpec args, empty_text_iff args, ?_, ?_⟩
  · intro he
    obtain ⟨tr, htr, hq, hmsg⟩ := startup_fail env opts args v hv (Or.inr he)
    exact ⟨tr, main_of_startup_error env fuel opts args _ htr, hmsg hf, hq⟩
  · intro hne
    have hst := startup_pass env opts args v hv hf hne
    refine ⟨_, _, hst, rfl, ?_⟩
    intro out hm
    exact main_after_startup env fuel opts args _ _ hst out hm

/-- C7 (amended), on the tokens "HI" and "YOU" with a leading blank token:
the text drawn is "HI YOU " with its trailing space. -/
theorem text_assembly_witness :
    eatLeadingSpaces (assemble [[' '], ['H', 'I'], ['Y', 'O', 'U']]) =
      ['H', 'I', ' ', 'Y', 'O', 'U', ' '] ∧
    ∃ p tr0, startup quietEnv [Opt.f []] [[' '], ['H', 'I'], ['Y', 'O', 'U']] =
        Except.ok (p, tr0 ++ [dryRun p]) ∧
      p.text = ['H', 'I', ' ', 'Y', 'O', 'U', ' '] := by
  refine ⟨by decide, ?_⟩
  obtain ⟨p, tr0, h1, h2, _⟩ :=
    (text_assembly quietEnv 0 [Opt.f []] [[' '], ['H', 'I'], ['Y', 'O', 'U']]
      { initVars quietEnv with font := sampleFont } rfl (by decide)).2.2.2 (by decide)
  exact ⟨p, tr0, h1, by rw [h2]; decide⟩

/-- C7 as stated fails on the single token "HI": the text drawn is "HI "
with a trailing space, not the join "HI". -/
theorem text_assembly_counterexample :
    eatLeadingSpaces (assemble [['H', 'I']]) = ['H', 'I', ' '] ∧
    eatLeadingSpaces (assemble [['H', 'I']]) ≠ eatLeadingSpaces (joinSpec [['H', 'I']]) ∧
    (main quietEnv 0 [Opt.f [], Opt.s 0] [['H', 'I']]).map (fun out => texts out.trace) =
      some [['H', 'I', ' '], ['H', 'I', ' ']] := by
  decide

/-- The render loop ends in static mode, in run-once mode, and whenever the
interrupt flag is eventually up for good. -/
theorem render_returns (env : Env) (p : Plan) (tr : List Event)
    (h : p.scroll_delay_ms ≤ 0 ∨ p.run_forever = false ∨
      ∃ T, ∀ t, T ≤ t → env.interrupt_received t = true) :
    ∃ fuel1, ∀ fuel2, fuel1 ≤ fuel2 → ∃ trL, render env p fuel2 tr = some trL := by
  by_cases hs : p.scroll_delay_ms ≤ 0
  · exact ⟨0, fun fuel2 _ => ⟨_, render_static env p fuel2 tr hs⟩⟩
  · have hpos : 0 < p.scroll_delay_ms := by omega
    rcases h with h | h | ⟨T, hT⟩
    · exact absurd h hs
    · refine ⟨1, fun fuel2 hf => ?_⟩
      obtain ⟨k, rfl⟩ : ∃ k, fuel2 = k + 1 := ⟨fuel2 - 1, by omega⟩
      unfold render
      rw [if_pos hpos]
      exact doWhile_once env p h k tr
    · refine ⟨T - tr.length + 1, fun fuel2 hf => ?_⟩
      unfold render
      rw [if_pos hpos]
      exact doWhile_terminates env p T hT fuel2 tr (by omega)

/-- C9. Fail-fast validation.  Every early return of startup ends the run
with exit code 1 and a trace without any `Send`, `Fill`, `DrawText` or
`Clear`; after accepted options this is what happens when no font is loaded
(line height below 0), when the width or the resolved height is below 1,
when the socket cannot be opened, or when the text is empty after stripping
leading whitespace, and without any of these startup reaches the render
loop.  Conversely every run that reaches the render loop and returns has
exit code 0, and it does return (given enough fuel) in static mode, in
run-once mode, and whenever the interrupt flag is eventually set. -/
theorem fail_fast (env : Env) (fuel : Nat) (opts : List Opt) (args : List (List Char)) :
    (∀ out, startup env opts args = Except.error out →
      main env fuel opts args = some out ∧ out.exit = 1 ∧
        ∀ e ∈ out.trace, e.isDisplayOp = false) ∧
    (∀ v, getoptLoop env (initVars env) opts = Except.ok v →
      (v.font.height < 0 ∨ v.width < 1 ∨ heightDefault v < 1 ∨ env.openSocket v.host < 0 ∨
        eatLeadingSpaces (assemble args) = []) →
      ∃ tr, main env fuel opts args = some ⟨1, tr⟩ ∧ ∀ e ∈ tr, e.isDisplayOp = false) ∧
    (∀ v, getoptLoop env (initVars env) opts = Except.ok v →
      ¬ (v.font.height < 0 ∨ v.width < 1 ∨ heightDefault v < 1 ∨ env.openSocket v.host < 0 ∨
        eatLeadingSpaces (assemble args) = []) →
      ∃ p tr0, startup env opts args = Except.ok (p, tr0)) ∧
    (∀ p tr0, startup env opts args = Except.ok (p, tr0) →
      (∀ out, main env fuel opts args = some out → out.exit = 0) ∧
      ((p.scroll_delay_ms ≤ 0 ∨ p.run_forever = false ∨
          ∃ T, ∀ t, T ≤ t → env.interrupt_received t = true) →
        ∃ fuel1, ∀ fuel2, fuel1 ≤ fuel2 →
          ∃ out, main env fuel2 opts args = some out ∧ out.exit = 0)) := by
  refine ⟨?_, ?_, ?_, ?_⟩
  · intro out h
    obtain ⟨h1, h2⟩ := startup_error env opts args out h
    exact ⟨main_of_startup_error env fuel opts args out h, h1, h2⟩
  · intro v hv hc
    have hc1 : configFails env v ∨ eatLeadingSpaces (assemble args) = [] := by
      unfold configFails
      tauto
    obtain ⟨tr, htr, hq, _⟩ := startup_fail env opts args v hv hc1
    exact ⟨tr, main_of_startup_error env fuel opts args _ htr, hq⟩
  · intro v hv hn
    have hf : ¬ configFails env v := by
      unfold configFails
      tauto
    exact ⟨_, _, startup_pass env opts args v hv hf (by tauto)⟩
  · intro p tr0 hst
    refine ⟨fun out hm => (main_after_startup env fuel opts args p tr0 hst out hm).1, ?_⟩
    intro hret
    obtain ⟨fuel1, h1⟩ := render_returns env p (tr0 ++ [Event.signal 15, Event.signal 2]) hret
    refine ⟨fuel1, fun fuel2 hf => ?_⟩
    obtain ⟨trL, hr⟩ := h1 fuel2 hf
    obtain ⟨rest, hex, _⟩ := execute_of_render env p fuel2 tr0 trL hr
    exact ⟨_, by rw [main_of_startup_ok env fuel2 opts args p tr0 hst, hex], rfl⟩

/-- C9, on a run without a font option (exit code 1, two messages, nothing
drawn) and on a forever-scrolling run interrupted at logical time 9 (which
returns with exit code 0). -/
theorem fail_fast_witness :
    main quietEnv 0 [] [['H', 'I']] =
      some ⟨1, [Event.stderr Msg.needFont, Event.stderr Msg.usageText]⟩ ∧
    ∃ fuel1, ∀ fuel2, fuel1 ≤ fuel2 →
      ∃ out, main (sampleEnv (fun t => decide (9 ≤ t)) (fun _ => true)) fuel2
        [Opt.f []] [['H', 'I']] = some out ∧ out.exit = 0 := by
  constructor
  · obtain ⟨tr, h1, _⟩ := (fail_fast quietEnv 0 [] [['H', 'I']]).2.1
      (initVars quietEnv) rfl (Or.inl (by decide))
    rw [h1]
    exact h1.symm.trans (by decide)
  · exact ((fail_fast (sampleEnv (fun t => decide (9 ≤ t)) (fun _ => true)) 0
      [Opt.f []] [['H', 'I']]).2.2.2
      (planOf (sampleEnv (fun t => decide (9 ≤ t)) (fun _ => true))
        (displayOf (sampleEnv (fun t => decide (9 ≤ t)) (fun _ => true))
          { initVars (sampleEnv (fun t => decide (9 ≤ t)) (fun _ => true)) with
            font := sampleFont }) ['H', 'I', ' ']) _ rfl).2
      (Or.inr (Or.inr ⟨9, fun t ht => by simpa [sampleEnv] using ht⟩))

/-- C10 (amended). Height resolution: after accepted options the font is the
result of the font options alone, wherever the geometry options stand among
them; if no geometry option supplied a height, the resolved height is that
font's line height; if the last height supplied is `h ≥ 0`, the resolved
height is `h`, so that `h = 0` is rejected as a non-positive dimension; if
it is `h < 0`, it counts as unset and the resolved height is the font's line
height.  A resolved height below 1 makes the run return through `usage`
with exit code 1; otherwise the display is constructed with the resolved
height. -/
theorem height_resolution (env : Env) (opts : List Opt) (v : Vars)
    (hv : getoptLoop env (initVars env) opts = Except.ok v) :
    v.font = fontAfter env env.newFont (opts.filterMap fontPath) ∧
    heightDefault v =
      (match lastSupplied Field.height opts with
        | none => v.font.height
        | some h => if h < 0 then v.font.height else h) ∧
    (∀ d, configure env v = Except.ok d → d.height = heightDefault v ∧ 1 ≤ d.height) ∧
    (heightDefault v < 1 → ∃ tr, configure env v = Except.error ⟨1, tr⟩ ∧
      Event.stderr Msg.usageText ∈ tr) := by
  have hh : v.height = (lastSupplied Field.height opts).getD (-1) :=
    getoptLoop_field env Field.height opts _ v hv
  refine ⟨getoptLoop_font env opts _ v hv, ?_, ?_, ?_⟩
  · unfold heightDefault
    rw [hh]
    cases lastSupplied Field.height opts with
    | none => simp
    | some h => simp
  · intro d hd
    by_cases hf : configFails env v
    · obtain ⟨ev, he, _⟩ := (configure_spec env v).1 hf
      rw [he] at hd
      cases hd
    · rw [(configure_spec env v).2 hf] at hd
      cases hd
      refine ⟨rfl, ?_⟩
      unfold configFails at hf
      simp only [displayOf]
      omega
  · intro hlt
    unfold configure
    by_cases h1 : v.font.height < 0
    · rw [if_pos h1]
      exact ⟨_, rfl, by simp [usage]⟩
    · rw [if_neg h1]
      simp only
      rw [if_pos (Or.inr hlt)]
      exact ⟨_, rfl, by simp [usage]⟩

/-- C10 (amended), on `-g 45x35 -f font`: the explicit height 35 is kept
although the font of height 10 is loaded after the geometry. -/
theorem height_resolution_witness :
    ∃ v, getoptLoop quietEnv (initVars quietEnv) [Opt.g [45, 35], Opt.f []] = Except.ok v ∧
      v.font = sampleFont ∧ heightDefault v = 35 := by
  refine ⟨_, rfl, ?_⟩
  obtain ⟨h1, h2, _⟩ := height_resolution quietEnv [Opt.g [45, 35], Opt.f []] _ rfl
  exact ⟨h1.trans (by decide), h2.trans (by decide)⟩

/-- C10 as stated fails on `-f font -g 45x-3 -s 0`: the explicit height -3
is not rejected; the display is constructed with the font height 10 and the
run ends with exit code 0. -/
theorem height_resolution_counterexample :
    (main quietEnv 0 [Opt.f [], Opt.g [45, -3], Opt.s 0] [['H', 'I']]).map
      (fun out => (out.exit, out.trace.take 2)) =
      some (0, [Event.openSocket none 3, Event.newDisplay 3 45 10]) := by
  decide

end SendText
